import Mathlib

/-!
Verification development for the xud order book core.

The order book (`OrderBook` in the source) is embedded as pure functions over
an explicit state; the per-pair matching engine, whose implementation file is
not part of the sources (only its unit tests and its caller are), is modelled
from the specification.  JavaScript numbers are modelled as rationals,
timestamps as naturals, and the JavaScript objects that the source uses as
string-keyed dictionaries as association lists.
-/

/-- A stamped order (own or peer) as in `lib/types/orders.ts`: the union of
`StampedOwnOrder` (has `localId`, no `peerId`) and `StampedPeerOrder`
(has `peerId` and `invoice`, no `localId`), encoded with optional fields. -/
structure StampedOrder where
  id : String
  pairId : String
  price : ℚ
  quantity : ℚ
  createdAt : ℕ
  localId : Option String
  peerId : Option String
  invoice : Option String
deriving DecidableEq, Repr

/-- Source `isOwnOrder` from `lib/types/orders.ts`:
`order['peerId'] === undefined && typeof order['localId'] === 'string'`. -/
def isOwnOrder (order : StampedOrder) : Bool :=
  order.peerId.isNone && order.localId.isSome

/-- Source `OrderingDirection` enum used by the priority-queue comparator. -/
inductive OrderingDirection where
  | Asc
  | Desc
deriving DecidableEq, Repr

/-- A match `{ maker, taker }` emitted by the matching engine. -/
structure OrderMatch where
  maker : StampedOrder
  taker : StampedOrder
deriving DecidableEq, Repr

/-- The result of matching a taker order: emitted matches and the optional
residual taker order. -/
structure MatchingResult where
  matchList : List OrderMatch
  remainingOrder : Option StampedOrder
deriving DecidableEq, Repr

/-- Per-pair matching engine state: a priority queue of buy orders (descending
price, then ascending createdAt) and of sell orders (ascending price, then
ascending createdAt), each kept as a list sorted with the head of the list
holding the highest-priority order. -/
structure MatchingEngine where
  pairId : String
  buyOrders : List StampedOrder
  sellOrders : List StampedOrder
deriving DecidableEq, Repr

namespace MatchingEngine

/-- Modelled from the spec: the crossing rule of `MatchingEngine.ts` (absent
from the sources; behaviour fixed by `test/unit/MatchingEngine.spec.ts`).
"a buy at price `p_b` crosses a sell at price `p_s` iff `p_b ≥ p_s`" and
"compute `matchQty = min(|taker|, |maker|)`"; the matching quantity is 0
when the orders do not cross. -/
def getMatchingQuantity (buyOrder sellOrder : StampedOrder) : ℚ :=
  if sellOrder.price ≤ buyOrder.price then
    min |buyOrder.quantity| |sellOrder.quantity|
  else 0

/-- Modelled from the spec: the priority-queue comparator of
`MatchingEngine.ts` (absent from the sources; behaviour fixed by
`test/unit/MatchingEngine.spec.ts`): lower price first for `Asc`, higher
price first for `Desc`, and at equal prices "earlier `createdAt` has
priority" in both directions. -/
def getOrdersPriorityQueueComparator (direction : OrderingDirection)
    (a b : StampedOrder) : Bool :=
  if a.price = b.price then decide (a.createdAt < b.createdAt)
  else
    match direction with
    | OrderingDirection.Asc => decide (a.price < b.price)
    | OrderingDirection.Desc => decide (b.price < a.price)

/-- Modelled from the spec: the splitting rule of `MatchingEngine.ts` (absent
from the sources; behaviour fixed by `test/unit/MatchingEngine.spec.ts`):
the order is split into a `target` of size `targetQuantity` (with the order's
sign) and a `remaining` carrying the rest; splitting requires the order's
absolute quantity to exceed `targetQuantity` (`InvalidSplit` otherwise,
modelled by `none`).  `target` and `remaining` keep the parent's id, price,
createdAt and source. -/
def splitOrderByQuantity (order : StampedOrder) (targetQuantity : ℚ) :
    Option (StampedOrder × StampedOrder) :=
  if targetQuantity < |order.quantity| then
    let sign : ℚ := if order.quantity < 0 then -1 else 1
    some ({ order with quantity := sign * targetQuantity },
          { order with quantity := order.quantity - sign * targetQuantity })
  else none

/-- Modelled from the spec: the matching loop of `MatchingEngine.ts` (absent
from the sources; behaviour fixed by `test/unit/MatchingEngine.spec.ts`):
"on each iteration take the queue head, compute
`matchQty = min(|taker|, |maker|)`, split whichever side is larger, emit a
match `{ maker, taker }` with `matchQty`, reduce the other side by that
amount, continue until taker is exhausted or no crossable head remains."
`matchingQuantityFor` is the source's local `getMatchingQuantity` closure,
putting the buy order first; `matchOrders` returns the matching result
together with the queue of unconsumed makers. -/
def matchingQuantityFor (takerOrder oppositeOrder : StampedOrder) : ℚ :=
  if 0 < takerOrder.quantity then getMatchingQuantity takerOrder oppositeOrder
  else getMatchingQuantity oppositeOrder takerOrder

/-- One maker-queue pass of the matching loop (see `matchOrders`). -/
def matchOrders : StampedOrder → List StampedOrder →
    MatchingResult × List StampedOrder
  | takerOrder, [] => (⟨[], some takerOrder⟩, [])
  | takerOrder, maker :: rest =>
    if matchingQuantityFor takerOrder maker ≤ 0 then
      (⟨[], some takerOrder⟩, maker :: rest)
    else if |maker.quantity| < |takerOrder.quantity| then
      match splitOrderByQuantity takerOrder (matchingQuantityFor takerOrder maker) with
      | some (target, remaining) =>
        let step := matchOrders remaining rest
        (⟨⟨maker, target⟩ :: step.1.matchList, step.1.remainingOrder⟩, step.2)
      | none => (⟨[], some takerOrder⟩, maker :: rest)
    else if |takerOrder.quantity| < |maker.quantity| then
      match splitOrderByQuantity maker (matchingQuantityFor takerOrder maker) with
      | some (target, remaining) =>
        (⟨[⟨target, takerOrder⟩], none⟩, remaining :: rest)
      | none => (⟨[], some takerOrder⟩, maker :: rest)
    else
      (⟨[⟨maker, takerOrder⟩], none⟩, rest)

/-- Insertion into a priority queue kept as a sorted list: the new order goes
in front of the first queued order over which the comparator gives it
priority. -/
def insertByPriority (direction : OrderingDirection) (order : StampedOrder) :
    List StampedOrder → List StampedOrder
  | [] => [order]
  | b :: rest =>
    if getOrdersPriorityQueueComparator direction order b then order :: b :: rest
    else b :: insertByPriority direction order rest

/-- Insert an order into the appropriate side queue: positive quantity into
the buy queue (descending price), negative into the sell queue (ascending
price). -/
def addOrderToQueue (engine : MatchingEngine) (order : StampedOrder) :
    MatchingEngine :=
  if 0 < order.quantity then
    { engine with buyOrders := insertByPriority OrderingDirection.Desc order engine.buyOrders }
  else
    { engine with sellOrders := insertByPriority OrderingDirection.Asc order engine.sellOrders }

/-- Modelled from the spec: `addPeerOrder(order)` of `MatchingEngine.ts`
(absent from the sources): "insert into appropriate side queue". -/
def addPeerOrder (engine : MatchingEngine) (order : StampedOrder) :
    MatchingEngine :=
  addOrderToQueue engine order

/-- Modelled from the spec:
`matchOrAddOwnOrder(order, discardRemaining) → { matches[], remainingOrder? }`
of `MatchingEngine.ts` (absent from the sources): match the taker against the
opposite-side queue; "if any residual and `!discardRemaining`, enqueue into
same-side queue". -/
def matchOrAddOwnOrder (engine : MatchingEngine) (order : StampedOrder)
    (discardRemaining : Bool) : MatchingResult × MatchingEngine :=
  let isBuy := 0 < order.quantity
  let step :=
    if isBuy then matchOrders order engine.sellOrders
    else matchOrders order engine.buyOrders
  let engine1 :=
    if isBuy then { engine with sellOrders := step.2 }
    else { engine with buyOrders := step.2 }
  match step.1.remainingOrder, discardRemaining with
  | some remaining, false => (step.1, addOrderToQueue engine1 remaining)
  | _, _ => (step.1, engine1)

/-- Removal of the first order with a given id from a queue, returning it. -/
def removeFromQueue (orderId : String) : List StampedOrder →
    Option StampedOrder × List StampedOrder
  | [] => (none, [])
  | o :: rest =>
    if o.id = orderId then (some o, rest)
    else
      let step := removeFromQueue orderId rest
      (step.1, o :: step.2)

/-- Modelled from the spec: `removeOwnOrder(id)` of `MatchingEngine.ts`
(absent from the sources): "remove ...; returns removed entity or null". -/
def removeOwnOrder (engine : MatchingEngine) (orderId : String) :
    Option StampedOrder × MatchingEngine :=
  match removeFromQueue orderId engine.buyOrders with
  | (some o, q) => (some o, { engine with buyOrders := q })
  | (none, _) =>
    match removeFromQueue orderId engine.sellOrders with
    | (some o, q) => (some o, { engine with sellOrders := q })
    | (none, _) => (none, engine)

/-- Modelled from the spec: `removePeerOrder(id, decreaseBy?)` of
`MatchingEngine.ts` (absent from the sources): "remove or decrement; returns
removed entity or null". -/
def removePeerOrder (engine : MatchingEngine) (orderId : String)
    (decreaseBy : Option ℚ) : Option StampedOrder × MatchingEngine :=
  match decreaseBy with
  | none => removeOwnOrder engine orderId
  | some d =>
    if d = 0 then removeOwnOrder engine orderId
    else
      match removeFromQueue orderId engine.buyOrders with
      | (some o, q) =>
        (some o, { engine with
          buyOrders := insertByPriority OrderingDirection.Desc
            { o with quantity := o.quantity - d } q })
      | (none, _) =>
        match removeFromQueue orderId engine.sellOrders with
        | (some o, q) =>
          (some o, { engine with
            sellOrders := insertByPriority OrderingDirection.Asc
              { o with quantity := o.quantity - d } q })
        | (none, _) => (none, engine)

/-- Modelled from the spec: `removePeerOrders` of `MatchingEngine.ts` (absent
from the sources): "bulk removal (used on peer disconnect)" of all orders
sourced from the given peer, returning them. -/
def removePeerOrders (engine : MatchingEngine) (peerId : String) :
    List StampedOrder × MatchingEngine :=
  let buys := engine.buyOrders.partition (fun o => o.peerId = some peerId)
  let sells := engine.sellOrders.partition (fun o => o.peerId = some peerId)
  (buys.1 ++ sells.1, { engine with buyOrders := buys.2, sellOrders := sells.2 })

/-- Source `isEmpty` of the matching engine. -/
def isEmpty (engine : MatchingEngine) : Bool :=
  engine.buyOrders.isEmpty && engine.sellOrders.isEmpty

end MatchingEngine

/-! ## Association-list maps

The source keeps its dictionaries (`localIdMap`, the per-pair `ownOrders` and
`peerOrders` maps, `matchingEngines`) as string-keyed JavaScript objects; we
embed them as association lists with at most one entry per key. -/

/-- Dictionary lookup (`m[k]`, `undefined` becoming `none`). -/
def lookupA {α : Type} (m : List (String × α)) (k : String) : Option α :=
  match m with
  | [] => none
  | kv :: rest => if kv.1 = k then some kv.2 else lookupA rest k

/-- Dictionary write (`m[k] = v`), replacing an existing entry for `k`. -/
def insertA {α : Type} (m : List (String × α)) (k : String) (v : α) :
    List (String × α) :=
  match m with
  | [] => [(k, v)]
  | kv :: rest => if kv.1 = k then (k, v) :: rest else kv :: insertA rest k v

/-- Dictionary deletion (`delete m[k]`). -/
def eraseA {α : Type} (m : List (String × α)) (k : String) :
    List (String × α) :=
  match m with
  | [] => []
  | kv :: rest => if kv.1 = k then rest else kv :: eraseA rest k

/-! ## The order book (from the `OrderBook` source file) -/

/-- The `Orders` record of the OrderBook source: per-pair maps from order id
to order, one for each side. -/
structure Orders where
  buyOrders : List (String × StampedOrder)
  sellOrders : List (String × StampedOrder)
deriving DecidableEq, Repr

/-- The mutable state of an `OrderBook` instance: the trading pairs, one
matching engine per pair, the own- and peer-order maps, and the map between
an own order's local id and global id. -/
structure OrderBookState where
  pairs : List String
  matchingEngines : List (String × MatchingEngine)
  ownOrders : List (String × Orders)
  peerOrders : List (String × Orders)
  localIdMap : List (String × String)
deriving DecidableEq, Repr

/-- Events emitted on the order book's own event emitter. -/
inductive BookEvent where
  | peerOrderIncoming (order : StampedOrder)
  | peerOrderInvalidation (orderId : String) (pairId : String)
      (quantity : Option ℚ)
deriving DecidableEq, Repr

/-- Messages sent to the p2p pool: `pool.broadcastOrder` (carrying the own
order being broadcast) and `pool.broadcastOrderInvalidation`. -/
inductive PoolMessage where
  | order (order : StampedOrder)
  | orderInvalidation (orderId : String) (pairId : String) (quantity : ℚ)
deriving DecidableEq, Repr

/-- An own order as supplied by the caller (`orders.OwnOrder`). -/
structure OwnOrder where
  pairId : String
  quantity : ℚ
  price : ℚ
  localId : String
deriving DecidableEq, Repr

/-- An own market order as supplied by the caller (`orders.OwnMarketOrder`):
no price. -/
structure OwnMarketOrder where
  pairId : String
  quantity : ℚ
  localId : String
deriving DecidableEq, Repr

/-- A peer order as received from the pool (`orders.PeerOrder`). -/
structure PeerOrder where
  id : String
  pairId : String
  price : ℚ
  quantity : ℚ
  peerId : String
  invoice : String
deriving DecidableEq, Repr

/-- Source `{ ...order, id: uuidv1(), createdAt: ms() }` of `addOwnOrder`; the fresh
uuid and the clock reading are passed in as parameters. -/
def stampOwnOrder (order : OwnOrder) (newId : String) (now : ℕ) :
    StampedOrder :=
  ⟨newId, order.pairId, order.price, order.quantity, now,
    some order.localId, none, none⟩

/-- Source `{ ...order, createdAt: ms() }` of `addPeerOrder`. -/
def stampPeerOrder (order : PeerOrder) (now : ℕ) : StampedOrder :=
  ⟨order.id, order.pairId, order.price, order.quantity, now,
    none, some order.peerId, some order.invoice⟩

/-- Errors thrown synchronously by `addOwnOrder`. -/
inductive OrderBookError where
  | duplicateOrder (localId : String)
  | invalidPairId (pairId : String)
deriving DecidableEq, Repr

/-- JavaScript truthiness of `m[k]` for a string-valued dictionary: the key is
present with a non-empty value. -/
def strTruthy (v : Option String) : Bool :=
  match v with
  | some s => s ≠ ""
  | none => false

/-- The constant `Number.MAX_VALUE`, the largest finite JavaScript number:
`(2 - 2^-52) * 2^1023 = 2^1024 - 2^971`. -/
def numberMaxValue : ℚ := 2 ^ 1024 - 2 ^ 971

namespace OrderBook

/-- Source `getOrderMap`: select the side map an order belongs to by the sign of its
quantity (`order.quantity > 0` selects `buyOrders`). -/
def getOrderMapOf (os : Orders) (order : StampedOrder) :
    List (String × StampedOrder) :=
  if 0 < order.quantity then os.buyOrders else os.sellOrders

/-- Write back the side map selected by `getOrderMapOf`. -/
def setOrderMapOf (os : Orders) (order : StampedOrder)
    (m : List (String × StampedOrder)) : Orders :=
  if 0 < order.quantity then { os with buyOrders := m }
  else { os with sellOrders := m }

/-- Write back a pair's `Orders` record into the own- or peer-order map. -/
def setOrdersAt (s : OrderBookState) (own : Bool) (pairId : String)
    (os : Orders) : OrderBookState :=
  if own then { s with ownOrders := insertA s.ownOrders pairId os }
  else { s with peerOrders := insertA s.peerOrders pairId os }

/-- Source `updateOrderQuantity(order, decreasedQuantity)`: decrement the stored
order's quantity; when it reaches 0 delete the order from its map (and, for
an own order, delete its `localIdMap` entry).  Returns `false` when the order
is not in the map.  (When the pair has no entry in the own/peer map the
source would throw on the `undefined` access; that situation is unreachable
from a well-formed book and is modelled as returning `false`.) -/
def updateOrderQuantity (s : OrderBookState) (order : StampedOrder)
    (decreasedQuantity : ℚ) : Bool × OrderBookState :=
  let own := isOwnOrder order
  match lookupA (if own then s.ownOrders else s.peerOrders) order.pairId with
  | none => (false, s)
  | some os =>
    let orderMap := getOrderMapOf os order
    match lookupA orderMap order.id with
    | none => (false, s)
    | some orderInstance =>
      let newQuantity := orderInstance.quantity - decreasedQuantity
      if newQuantity = 0 then
        let s1 :=
          if own then
            { s with localIdMap := eraseA s.localIdMap (order.localId.getD "") }
          else s
        (true, setOrdersAt s1 own order.pairId
          (setOrderMapOf os order (eraseA orderMap order.id)))
      else
        (true, setOrdersAt s own order.pairId
          (setOrderMapOf os order (insertA orderMap order.id
            { orderInstance with quantity := newQuantity })))

/-- Source `addOrder(type, order)`: for the own-order map, record the local→global
id mapping; then store the order in the side map given by its quantity sign.
(As in `updateOrderQuantity`, a missing pair entry would make the source
throw; it is modelled as a no-op.) -/
def addOrder (s : OrderBookState) (own : Bool) (order : StampedOrder) :
    OrderBookState :=
  let s1 :=
    if own then
      { s with localIdMap := insertA s.localIdMap (order.localId.getD "") order.id }
    else s
  match lookupA (if own then s1.ownOrders else s1.peerOrders) order.pairId with
  | none => s1
  | some os =>
    setOrdersAt s1 own order.pairId
      (setOrderMapOf os order
        (insertA (getOrderMapOf os order) order.id order))

/-- Source `removeOrder(type, orderId, pairId)`: delete the order from the pair's
buy map if present there, otherwise from the sell map; `false` when absent
from both.  (A missing pair entry would make the source throw; modelled as
returning `false`.) -/
def removeOrder (s : OrderBookState) (own : Bool) (orderId pairId : String) :
    Bool × OrderBookState :=
  match lookupA (if own then s.ownOrders else s.peerOrders) pairId with
  | none => (false, s)
  | some os =>
    if (lookupA os.buyOrders orderId).isSome then
      (true, setOrdersAt s own pairId
        { os with buyOrders := eraseA os.buyOrders orderId })
    else if (lookupA os.sellOrders orderId).isSome then
      (true, setOrdersAt s own pairId
        { os with sellOrders := eraseA os.sellOrders orderId })
    else (false, s)

/-- Source `handleMatch({ maker, taker })`: when the maker is an own order, broadcast
an `orderInvalidation` for the matched quantity to the pool; a peer maker
triggers no broadcast.  (The hand-off to the matches processor is external.) -/
def handleMatch (m : OrderMatch) : List PoolMessage :=
  if isOwnOrder m.maker then
    [PoolMessage.orderInvalidation m.maker.id m.maker.pairId m.maker.quantity]
  else []

/-- The output of a successful `addOwnOrder`: the new book state, the
matching result returned to the caller, emitted events, and pool messages. -/
structure AddOwnOrderOutput where
  state : OrderBookState
  result : MatchingResult
  events : List BookEvent
  msgs : List PoolMessage
deriving DecidableEq, Repr

/-- The per-match step of `addOwnOrder`'s `matches.forEach`: `handleMatch`
followed by `updateOrderQuantity(maker, maker.quantity)`. -/
def addOwnOrderMatchStep (acc : OrderBookState × List PoolMessage)
    (m : OrderMatch) : OrderBookState × List PoolMessage :=
  let msgs := acc.2 ++ handleMatch m
  let step := updateOrderQuantity acc.1 m.maker m.maker.quantity
  (step.2, msgs)

/-- Source `addOwnOrder(order, discardRemaining)`: throw `DUPLICATE_ORDER` when the
local id is already mapped, `INVALID_PAIR_ID` when the pair has no matching
engine (in both cases before touching any state); otherwise stamp the order,
run the matching engine, process each match, and — when a remainder exists
and is not discarded — broadcast it and add it to the own-order map. -/
def addOwnOrder (s : OrderBookState) (order : OwnOrder) (newId : String)
    (now : ℕ) (discardRemaining : Bool) :
    Except OrderBookError AddOwnOrderOutput :=
  if strTruthy (lookupA s.localIdMap order.localId) then
    Except.error (OrderBookError.duplicateOrder order.localId)
  else
    match lookupA s.matchingEngines order.pairId with
    | none => Except.error (OrderBookError.invalidPairId order.pairId)
    | some engine =>
      let stampedOrder := stampOwnOrder order newId now
      let engineStep := MatchingEngine.matchOrAddOwnOrder engine stampedOrder
        discardRemaining
      let matchingResult := engineStep.1
      let engines1 := insertA s.matchingEngines order.pairId engineStep.2
      let s1 := { s with matchingEngines := engines1 }
      let folded := matchingResult.matchList.foldl addOwnOrderMatchStep (s1, [])
      match matchingResult.remainingOrder, discardRemaining with
      | some remainingOrder, false =>
        Except.ok ⟨addOrder folded.1 true remainingOrder, matchingResult, [],
          folded.2 ++ [PoolMessage.order remainingOrder]⟩
      | _, _ => Except.ok ⟨folded.1, matchingResult, [], folded.2⟩

/-- Source `addLimitOrder(order)`: `addOwnOrder` with `discardRemaining` left at its
default `false`. -/
def addLimitOrder (s : OrderBookState) (order : OwnOrder) (newId : String)
    (now : ℕ) : Except OrderBookError AddOwnOrderOutput :=
  addOwnOrder s order newId now false

/-- Source `addMarketOrder(order)`: price `Number.MAX_VALUE` for a positive
(buy) quantity and `0` otherwise, then `addOwnOrder(..., true)`. -/
def addMarketOrder (s : OrderBookState) (order : OwnMarketOrder)
    (newId : String) (now : ℕ) : Except OrderBookError AddOwnOrderOutput :=
  let price : ℚ := if 0 < order.quantity then numberMaxValue else 0
  addOwnOrder s ⟨order.pairId, order.quantity, price, order.localId⟩
    newId now true

/-- The result record of `removeOwnOrderByLocalId`. -/
structure RemoveOwnOrderResult where
  removed : Bool
  globalId : Option String
deriving DecidableEq, Repr

/-- Source `removeOwnOrder(pairId, orderId)` (private): remove from the pair's
matching engine and, when the engine knew the order, from the own-order
maps. -/
def removeOwnOrder (s : OrderBookState) (pairId orderId : String) :
    Bool × OrderBookState :=
  match lookupA s.matchingEngines pairId with
  | none => (false, s)
  | some engine =>
    let engineStep := MatchingEngine.removeOwnOrder engine orderId
    let engines1 := insertA s.matchingEngines pairId engineStep.2
    let s1 := { s with matchingEngines := engines1 }
    match engineStep.1 with
    | some _ => removeOrder s1 true orderId pairId
    | none => (false, s1)

/-- Source `removeOwnOrderByLocalId(pairId, localId)`: resolve the local id to the
global id; when unmapped return `{ removed: false, globalId: undefined }`
without touching any state, otherwise delete the mapping and remove the
order.  No message is sent to the pool on this path. -/
def removeOwnOrderByLocalId (s : OrderBookState) (pairId localId : String) :
    RemoveOwnOrderResult × OrderBookState × List PoolMessage :=
  match lookupA s.localIdMap localId with
  | none => (⟨false, none⟩, s, [])
  | some id =>
    let s1 := { s with localIdMap := eraseA s.localIdMap localId }
    let step := removeOwnOrder s1 pairId id
    (⟨step.1, some id⟩, step.2, [])

/-- Source `const order = ordersMap[orderId]` in `removePeerOrder`: `ordersMap` is
the pair's `Orders` record, whose only properties are `buyOrders` and
`sellOrders`, so reading the property named by an order id always yields
`undefined`. -/
def ordersRecordLookup (_ordersMap : Orders) (_orderId : String) :
    Option StampedOrder := none

/-- Source `removePeerOrder(orderId, pairId, decreasedQuantity?)`: on an
`orderInvalidation` packet, look the order up, remove it from the engine,
then either delete it from the book (no quantity or quantity 0) or decrement
it, emitting a `peerOrder.invalidation` event on success.  The source's
lookup `ordersMap[orderId]` reads the order id as a property of the
`{ buyOrders, sellOrders }` record (see `ordersRecordLookup`), so the success
path is unreachable. -/
def removePeerOrder (s : OrderBookState) (orderId pairId : String)
    (decreasedQuantity : Option ℚ) :
    Bool × OrderBookState × List BookEvent :=
  match lookupA s.matchingEngines pairId, lookupA s.peerOrders pairId with
  | some engine, some ordersMap =>
    (match ordersRecordLookup ordersMap orderId with
     | some order =>
       let engineStep := MatchingEngine.removePeerOrder engine orderId
         decreasedQuantity
       if engineStep.1.isSome then
         let engines1 := insertA s.matchingEngines pairId engineStep.2
         let s1 := { s with matchingEngines := engines1 }
         let step :=
           match decreasedQuantity with
           | none => removeOrder s1 false orderId pairId
           | some d =>
             if d = 0 then removeOrder s1 false orderId pairId
             else updateOrderQuantity s1 order d
         if step.1 then
           (true, step.2,
             [BookEvent.peerOrderInvalidation orderId pairId decreasedQuantity])
         else (false, step.2, [])
       else (false, s, [])
     | none => (false, s, []))
  | _, _ => (false, s, [])

/-- Source `addPeerOrder(order)` on a `packet.order`: drop the order when its pair
has no engine, otherwise stamp it, emit `peerOrder.incoming`, insert it into
the engine and the peer-order maps.  Nothing is broadcast. -/
def addPeerOrder (s : OrderBookState) (order : PeerOrder) (now : ℕ) :
    OrderBookState × List BookEvent × List PoolMessage :=
  match lookupA s.matchingEngines order.pairId with
  | none => (s, [], [])
  | some engine =>
    let stampedOrder := stampPeerOrder order now
    let engine1 := MatchingEngine.addPeerOrder engine stampedOrder
    let engines1 := insertA s.matchingEngines order.pairId engine1
    let s1 := { s with matchingEngines := engines1 }
    (addOrder s1 false stampedOrder,
      [BookEvent.peerOrderIncoming stampedOrder], [])

/-- The per-removed-order step inside `removePeerOrders`' `orders.forEach`:
remove the order from the peer-order maps and emit `peerOrder.invalidation`
with its order id and pair id. -/
def removePeerOrdersOrderStep (acc : OrderBookState × List BookEvent)
    (order : StampedOrder) : OrderBookState × List BookEvent :=
  let step := removeOrder acc.1 false order.id order.pairId
  (step.2, acc.2 ++ [BookEvent.peerOrderInvalidation order.id order.pairId none])

/-- The per-pair step of `removePeerOrders`' `pairs.forEach`: bulk-remove the
peer's orders from the pair's engine and process each removed order.  (A pair
with no engine would make the source throw; modelled as a no-op, unreachable
from a well-formed book.) -/
def removePeerOrdersPairStep (peerId : String)
    (acc : OrderBookState × List BookEvent) (pairId : String) :
    OrderBookState × List BookEvent :=
  match lookupA acc.1.matchingEngines pairId with
  | none => acc
  | some engine =>
    let engineStep := MatchingEngine.removePeerOrders engine peerId
    let engines1 := insertA acc.1.matchingEngines pairId engineStep.2
    let s1 := { acc.1 with matchingEngines := engines1 }
    engineStep.1.foldl removePeerOrdersOrderStep (s1, acc.2)

/-- Source `removePeerOrders(peer)` on `peer.close`: for every trading pair,
bulk-remove all orders sourced from that peer and emit one
`peerOrder.invalidation` per removed order.  Nothing is broadcast. -/
def removePeerOrders (s : OrderBookState) (peerId : String) :
    OrderBookState × List BookEvent :=
  s.pairs.foldl (removePeerOrdersPairStep peerId) (s, [])

end OrderBook

/-! ## Packets (from `lib/p2p/packets/Packet.ts` and
`lib/p2p/packets/types/SwapAcceptedPacket.ts`)

The generated protobuf class `pb.SwapAcceptedPacket` is an external
collaborator; its message object (the `AsObject` of the five scalar fields,
with proto3 defaults `""`/`0` for unset fields) stands for the wire bytes,
`serializeBinary`/`deserializeBinary` being the library's faithful round
trip between the two. -/

/-- The packet header: a unique packet id and the optional id of the request
packet being responded to. -/
structure PacketHeader where
  id : String
  reqId : Option String
deriving DecidableEq, Repr

/-- Source `SwapAcceptedPacketBody`. -/
structure SwapAcceptedPacketBody where
  rHash : String
  quantity : ℚ
  makerCltvDelta : ℚ
deriving DecidableEq, Repr

/-- A `SwapAcceptedPacket`: a header and an optional body, as in the
`Packet` base class. -/
structure SwapAcceptedPacket where
  header : PacketHeader
  body : Option SwapAcceptedPacketBody
deriving DecidableEq, Repr

/-- The `pb.SwapAcceptedPacket.AsObject` protobuf message: all five fields
present, with proto3 defaults for unset ones. -/
structure PbSwapAcceptedPacket where
  id : String
  reqId : String
  rHash : String
  quantity : ℚ
  makerCltvDelta : ℚ
deriving DecidableEq, Repr

namespace SwapAcceptedPacket

/-- Source `serialize()`: copy the header ids and the body fields into a protobuf
message.  The source dereferences `this.body!`, so an absent body faults
(modelled by `none`); an absent `reqId` serializes as the proto3 default
empty string. -/
def serialize (p : SwapAcceptedPacket) : Option PbSwapAcceptedPacket :=
  match p.body with
  | none => none
  | some body =>
    some ⟨p.header.id, p.header.reqId.getD "", body.rHash, body.quantity,
      body.makerCltvDelta⟩

/-- Source `validate(obj)`: all five fields truthy (non-empty strings, non-zero
numbers). -/
def validate (obj : PbSwapAcceptedPacket) : Bool :=
  decide (obj.id ≠ "") && decide (obj.reqId ≠ "") && decide (obj.rHash ≠ "")
    && decide (obj.quantity ≠ 0) && decide (obj.makerCltvDelta ≠ 0)

/-- Source `convert(obj)`: rebuild the packet from the message via the
deserialization constructor of `Packet`, which copies the given header and
body. -/
def convert (obj : PbSwapAcceptedPacket) : SwapAcceptedPacket :=
  ⟨⟨obj.id, some obj.reqId⟩, some ⟨obj.rHash, obj.quantity, obj.makerCltvDelta⟩⟩

/-- Source `deserialize(binary)`: parse the message, returning the converted packet
when it validates and the raw message object otherwise. -/
def deserialize (obj : PbSwapAcceptedPacket) :
    SwapAcceptedPacket ⊕ PbSwapAcceptedPacket :=
  if validate obj then Sum.inl (convert obj) else Sum.inr obj

end SwapAcceptedPacket

/-! ## Derived quantities and concrete sample data -/

/-- The total matched quantity of a matching result, in base-currency units:
the sum over the emitted matches of the matched (absolute) quantity. -/
def matchedQuantity (r : MatchingResult) : ℚ :=
  (r.matchList.map (fun m => |m.taker.quantity|)).sum

/-- The absolute quantity of the residual order of a matching result, zero
when the taker was fully consumed. -/
def remainingQuantity (r : MatchingResult) : ℚ :=
  match r.remainingOrder with
  | some o => |o.quantity|
  | none => 0

/-- A sample book state with the single pair LTC/BTC and everything empty. -/
def emptyBook : OrderBookState :=
  ⟨["LTC/BTC"], [("LTC/BTC", ⟨"LTC/BTC", [], []⟩)],
   [("LTC/BTC", ⟨[], []⟩)], [("LTC/BTC", ⟨[], []⟩)], []⟩

/-- Sample peer sell order of quantity 4 at price 5 (scenario S2). -/
def peerSell4 : PeerOrder := ⟨"pidA", "LTC/BTC", 5, -4, "peer1", "inv"⟩

/-- Sample peer sell order of quantity 5 at price 5 (scenario S2). -/
def peerSell5 : PeerOrder := ⟨"pidB", "LTC/BTC", 5, -5, "peer1", "inv"⟩

/-- The book after importing the two S2 peer sells. -/
def bookS2 : OrderBookState :=
  (OrderBook.addPeerOrder
    (OrderBook.addPeerOrder emptyBook peerSell4 1).1 peerSell5 2).1

/-- The own buy of quantity 10 at price 5 of scenario S2. -/
def ownBuy10 : OwnOrder := ⟨"LTC/BTC", 10, 5, "local1"⟩

/-- The outcome of placing the S2 own buy on `bookS2` (total quantity 9 is
matched and an own buy of quantity 1 remains). -/
def outS2 : OrderBook.AddOwnOrderOutput :=
  match OrderBook.addOwnOrder bookS2 ownBuy10 "gid1" 3 false with
  | Except.ok out => out
  | Except.error _ => ⟨bookS2, ⟨[], none⟩, [], []⟩

/-! ## Helper lemmas: association lists -/

theorem lookupA_mem {α : Type} : ∀ (m : List (String × α)) (k : String) (v : α),
    lookupA m k = some v → (k, v) ∈ m
  | [], k, v, h => by simp [lookupA] at h
  | (a, b) :: rest, k, v, h => by
    rw [lookupA] at h
    by_cases ha : a = k
    · rw [if_pos ha] at h
      injection h with h
      subst ha h
      exact List.mem_cons_self _ _
    · rw [if_neg ha] at h
      exact List.mem_cons_of_mem _ (lookupA_mem rest k v h)

theorem lookupA_of_not_mem_keys {α : Type} :
    ∀ (m : List (String × α)) (k : String),
    k ∉ m.map Prod.fst → lookupA m k = none
  | [], _, _ => rfl
  | (a, b) :: rest, k, h => by
    rw [List.map_cons] at h
    have hne : ((a, b).1 = k) → False := fun ha => h (ha ▸ List.mem_cons_self _ _)
    rw [lookupA, if_neg hne]
    exact lookupA_of_not_mem_keys rest k (fun hm => h (List.mem_cons_of_mem _ hm))

theorem lookupA_insertA_self {α : Type} :
    ∀ (m : List (String × α)) (k : String) (v : α),
    lookupA (insertA m k v) k = some v
  | [], k, v => by simp [insertA, lookupA]
  | (a, b) :: rest, k, v => by
    rw [insertA]
    by_cases ha : a = k
    · rw [if_pos ha, lookupA, if_pos rfl]
    · rw [if_neg ha, lookupA, if_neg ha]
      exact lookupA_insertA_self rest k v

theorem lookupA_insertA_ne {α : Type} :
    ∀ (m : List (String × α)) (k k' : String) (v : α), k' ≠ k →
    lookupA (insertA m k v) k' = lookupA m k'
  | [], k, k', v, h => by
    simp [insertA, lookupA, Ne.symm h]
  | (a, b) :: rest, k, k', v, h => by
    rw [insertA]
    by_cases ha : a = k
    · subst ha
      simp [lookupA, Ne.symm h]
    · rw [if_neg ha]
      simp only [lookupA]
      by_cases ha2 : a = k'
      · rw [if_pos ha2, if_pos ha2]
      · rw [if_neg ha2, if_neg ha2]
        exact lookupA_insertA_ne rest k k' v h

theorem eraseA_sublist {α : Type} :
    ∀ (m : List (String × α)) (k : String), (eraseA m k).Sublist m
  | [], _ => List.Sublist.refl _
  | (a, b) :: rest, k => by
    rw [eraseA]
    by_cases ha : a = k
    · rw [if_pos ha]
      exact List.sublist_cons_self _ _
    · rw [if_neg ha]
      exact List.Sublist.cons₂ _ (eraseA_sublist rest k)

theorem mem_of_mem_eraseA {α : Type} {m : List (String × α)} {k : String}
    {kv : String × α} (h : kv ∈ eraseA m k) : kv ∈ m :=
  (eraseA_sublist m k).mem h

theorem keys_eraseA_nodup {α : Type} (m : List (String × α)) (k : String)
    (hnd : (m.map Prod.fst).Nodup) : ((eraseA m k).map Prod.fst).Nodup :=
  ((eraseA_sublist m k).map Prod.fst).nodup hnd

theorem lookupA_eraseA_self {α : Type} :
    ∀ (m : List (String × α)) (k : String), (m.map Prod.fst).Nodup →
    lookupA (eraseA m k) k = none
  | [], _, _ => rfl
  | (a, b) :: rest, k, hnd => by
    rw [List.map_cons, List.nodup_cons] at hnd
    rw [eraseA]
    by_cases ha : a = k
    · rw [if_pos ha]
      exact lookupA_of_not_mem_keys rest k (fun hm => hnd.1 (ha ▸ hm))
    · rw [if_neg ha, lookupA, if_neg ha]
      exact lookupA_eraseA_self rest k hnd.2

theorem lookupA_eraseA_ne {α : Type} :
    ∀ (m : List (String × α)) (k k' : String), k' ≠ k →
    lookupA (eraseA m k) k' = lookupA m k'
  | [], _, _, _ => rfl
  | (a, b) :: rest, k, k', h => by
    rw [eraseA]
    by_cases ha : a = k
    · subst ha
      simp [lookupA, Ne.symm h]
    · rw [if_neg ha]
      simp only [lookupA]
      by_cases ha2 : a = k'
      · rw [if_pos ha2, if_pos ha2]
      · rw [if_neg ha2, if_neg ha2]
        exact lookupA_eraseA_ne rest k k' h

theorem mem_insertA {α : Type} :
    ∀ (m : List (String × α)) (k : String) (v : α) (kv : String × α),
    kv ∈ insertA m k v → kv = (k, v) ∨ kv ∈ m
  | [], k, v, kv, h => by
    rw [insertA] at h
    simp at h
    exact Or.inl h
  | (a, b) :: rest, k, v, kv, h => by
    rw [insertA] at h
    by_cases ha : a = k
    · rw [if_pos ha] at h
      rcases List.mem_cons.mp h with h | h
      · exact Or.inl h
      · exact Or.inr (List.mem_cons_of_mem _ h)
    · rw [if_neg ha] at h
      rcases List.mem_cons.mp h with h | h
      · exact Or.inr (h ▸ List.mem_cons_self _ _)
      · rcases mem_insertA rest k v kv h with h | h
        · exact Or.inl h
        · exact Or.inr (List.mem_cons_of_mem _ h)

/-! ## Helper lemmas: order splitting and the matching loop -/

theorem splitOrderByQuantity_eq (order : StampedOrder) (t : ℚ)
    (target remaining : StampedOrder)
    (h : MatchingEngine.splitOrderByQuantity order t = some (target, remaining)) :
    t < |order.quantity| ∧
    target = { order with
      quantity := (if order.quantity < 0 then -1 else 1) * t } ∧
    remaining = { order with
      quantity := order.quantity - (if order.quantity < 0 then -1 else 1) * t } := by
  rw [MatchingEngine.splitOrderByQuantity] at h
  split at h
  · rename_i hlt
    injection h with h
    injection h with h1 h2
    exact ⟨hlt, h1.symm, h2.symm⟩
  · exact absurd h (by simp)

theorem abs_signed_target (q t : ℚ) (h0 : 0 ≤ t) :
    |(if q < 0 then -1 else 1) * t| = t := by
  split
  · rw [neg_one_mul, abs_neg, abs_of_nonneg h0]
  · rw [one_mul, abs_of_nonneg h0]

theorem abs_signed_remaining (q t : ℚ) (h0 : 0 ≤ t) (hlt : t < |q|) :
    |q - (if q < 0 then -1 else 1) * t| = |q| - t := by
  rcases lt_or_le q 0 with hq | hq
  · rw [abs_of_neg hq] at hlt
    rw [if_pos hq, neg_one_mul, sub_neg_eq_add, abs_of_neg (by linarith),
      abs_of_neg hq]
    ring
  · rw [abs_of_nonneg hq] at hlt
    rw [if_neg (not_lt.mpr hq), one_mul, abs_of_nonneg hq,
      abs_of_nonneg (by linarith)]

theorem matchingQuantityFor_of_pos (taker maker : StampedOrder)
    (h : ¬ MatchingEngine.matchingQuantityFor taker maker ≤ 0) :
    MatchingEngine.matchingQuantityFor taker maker
      = min |taker.quantity| |maker.quantity| := by
  by_cases hside : 0 < taker.quantity
  · rw [MatchingEngine.matchingQuantityFor, if_pos hside,
      MatchingEngine.getMatchingQuantity] at h ⊢
    by_cases hcross : maker.price ≤ taker.price
    · rw [if_pos hcross]
    · rw [if_neg hcross] at h
      exact absurd le_rfl h
  · rw [MatchingEngine.matchingQuantityFor, if_neg hside,
      MatchingEngine.getMatchingQuantity] at h ⊢
    by_cases hcross : taker.price ≤ maker.price
    · rw [if_pos hcross]
      exact min_comm _ _
    · rw [if_neg hcross] at h
      exact absurd le_rfl h

theorem matchOrders_conservation :
    ∀ (queue : List StampedOrder) (taker : StampedOrder),
    matchedQuantity (MatchingEngine.matchOrders taker queue).1
      + remainingQuantity (MatchingEngine.matchOrders taker queue).1
      = |taker.quantity|
  | [], taker => by
    simp [MatchingEngine.matchOrders, matchedQuantity, remainingQuantity]
  | maker :: rest, taker => by
    rw [MatchingEngine.matchOrders]
    split
    · simp [matchedQuantity, remainingQuantity]
    · rename_i hmq
      have h0 : (0:ℚ) ≤ MatchingEngine.matchingQuantityFor taker maker :=
        le_of_lt (lt_of_not_le hmq)
      split
      · rename_i hlt
        split
        · rename_i target remaining hsplit
          have hspec := splitOrderByQuantity_eq _ _ _ _ hsplit
          have ih := matchOrders_conservation rest remaining
          have hmqmin := matchingQuantityFor_of_pos taker maker hmq
          rw [min_eq_right (le_of_lt hlt)] at hmqmin
          have htq : |target.quantity| = |maker.quantity| := by
            rw [hspec.2.1]
            simp only []
            rw [abs_signed_target _ _ h0, hmqmin]
          have hremq : |remaining.quantity| = |taker.quantity| - |maker.quantity| := by
            rw [hspec.2.2]
            simp only []
            rw [abs_signed_remaining _ _ h0 hspec.1, hmqmin]
          simp only [matchedQuantity, remainingQuantity, List.map_cons,
            List.sum_cons]
          simp only [matchedQuantity, remainingQuantity] at ih
          rw [htq]
          linarith [ih]
        · simp [matchedQuantity, remainingQuantity]
      · split
        · split
          · simp [matchedQuantity, remainingQuantity]
          · simp [matchedQuantity, remainingQuantity]
        · simp [matchedQuantity, remainingQuantity]

theorem matchOrAddOwnOrder_result (engine : MatchingEngine)
    (order : StampedOrder) (d : Bool) :
    (MatchingEngine.matchOrAddOwnOrder engine order d).1 =
      (if 0 < order.quantity then MatchingEngine.matchOrders order engine.sellOrders
       else MatchingEngine.matchOrders order engine.buyOrders).1 := by
  simp only [MatchingEngine.matchOrAddOwnOrder]
  split
  · rfl
  · rfl

theorem matchOrAddOwnOrder_conservation (engine : MatchingEngine)
    (order : StampedOrder) (d : Bool) :
    matchedQuantity (MatchingEngine.matchOrAddOwnOrder engine order d).1
      + remainingQuantity (MatchingEngine.matchOrAddOwnOrder engine order d).1
      = |order.quantity| := by
  rw [matchOrAddOwnOrder_result]
  by_cases hbuy : 0 < order.quantity
  · rw [if_pos hbuy]
    exact matchOrders_conservation _ order
  · rw [if_neg hbuy]
    exact matchOrders_conservation _ order

theorem addOwnOrder_result (s : OrderBookState) (order : OwnOrder)
    (newId : String) (now : ℕ) (discardRemaining : Bool)
    (out : OrderBook.AddOwnOrderOutput)
    (h : OrderBook.addOwnOrder s order newId now discardRemaining
      = Except.ok out) :
    ∃ engine, lookupA s.matchingEngines order.pairId = some engine ∧
      out.result = (MatchingEngine.matchOrAddOwnOrder engine
        (stampOwnOrder order newId now) discardRemaining).1 := by
  simp only [OrderBook.addOwnOrder] at h
  split at h
  · exact absurd h (by simp)
  · split at h
    · exact absurd h (by simp)
    · rename_i engine heng
      refine ⟨engine, heng, ?_⟩
      split at h
      · injection h with h
        subst h
        rfl
      · injection h with h
        subst h
        rfl

/-- Claim C1: for every own limit order placed into the matching engine, the sum
of the matched quantities over all emitted matches plus the quantity of the
returned remaining order (zero if no remaining order) equals the order's
initial quantity; in particular (scenario S2) a buy of 10 at price 5 against
resting peer sells of 4 and 5 at price 5 yields matches totalling 9 and a
remaining own buy of quantity 1 enqueued on the buy side. -/
theorem claimC1_conservation :
    (∀ (s : OrderBookState) (order : OwnOrder) (newId : String) (now : ℕ)
      (discardRemaining : Bool) (out : OrderBook.AddOwnOrderOutput),
      OrderBook.addOwnOrder s order newId now discardRemaining = Except.ok out →
      matchedQuantity out.result + remainingQuantity out.result
        = |order.quantity|)
    ∧ matchedQuantity outS2.result = 9
    ∧ (∃ rem, outS2.result.remainingOrder = some rem ∧ rem.quantity = 1
        ∧ isOwnOrder rem = true
        ∧ ∃ engine,
            lookupA outS2.state.matchingEngines "LTC/BTC" = some engine
            ∧ rem ∈ engine.buyOrders) := by
  refine ⟨?_, by with_unfolding_all decide, ?_⟩
  · intro s order newId now discardRemaining out h
    obtain ⟨engine, _, hres⟩ :=
      addOwnOrder_result s order newId now discardRemaining out h
    rw [hres]
    exact matchOrAddOwnOrder_conservation engine _ discardRemaining
  · refine ⟨⟨"gid1", "LTC/BTC", 5, 1, 3, some "local1", none, none⟩,
      by with_unfolding_all decide, by with_unfolding_all decide, by with_unfolding_all decide, ?_⟩
    refine ⟨⟨"LTC/BTC", [⟨"gid1", "LTC/BTC", 5, 1, 3, some "local1", none, none⟩], []⟩,
      by with_unfolding_all decide, by with_unfolding_all decide⟩

/-- Witness for C1: the universally quantified part applied to the concrete
S2 placement. -/
theorem claimC1_conservation_witness :
    matchedQuantity outS2.result + remainingQuantity outS2.result = |(10:ℚ)| :=
  claimC1_conservation.1 bookS2 ownBuy10 "gid1" 3 false outS2 (by with_unfolding_all rfl)

theorem sign_preserved_remaining (q t : ℚ) (h0 : 0 ≤ t) (hlt : t < |q|) :
    (0 < q → 0 < q - (if q < 0 then -1 else 1) * t) ∧
    (q < 0 → q - (if q < 0 then -1 else 1) * t < 0) := by
  constructor
  · intro hq
    rw [abs_of_pos hq] at hlt
    rw [if_neg (not_lt.mpr hq.le), one_mul]
    linarith
  · intro hq
    rw [abs_of_neg hq] at hlt
    rw [if_pos hq, neg_one_mul, sub_neg_eq_add]
    linarith

theorem matchOrders_head_min (taker maker : StampedOrder)
    (rest : List StampedOrder) (mm : OrderMatch)
    (h : (MatchingEngine.matchOrders taker (maker :: rest)).1.matchList.head?
      = some mm) :
    |mm.maker.quantity| = min |taker.quantity| |maker.quantity|
    ∧ |mm.taker.quantity| = min |taker.quantity| |maker.quantity| := by
  rw [MatchingEngine.matchOrders] at h
  split at h
  · simp at h
  · rename_i hmq
    have h0 : (0:ℚ) ≤ MatchingEngine.matchingQuantityFor taker maker :=
      le_of_lt (lt_of_not_le hmq)
    have hmqmin := matchingQuantityFor_of_pos taker maker hmq
    split at h
    · rename_i hlt
      split at h
      · rename_i target remaining hsplit
        have hspec := splitOrderByQuantity_eq _ _ _ _ hsplit
        simp only [List.head?_cons, Option.some.injEq] at h
        subst h
        constructor
        · simp only []
          rw [min_eq_right hlt.le]
        · simp only []
          rw [hspec.2.1]
          simp only []
          rw [abs_signed_target _ _ h0, hmqmin]
      · simp at h
    · rename_i hge
      split at h
      · rename_i hlt2
        split at h
        · rename_i target remaining hsplit
          have hspec := splitOrderByQuantity_eq _ _ _ _ hsplit
          simp only [List.head?_cons, Option.some.injEq] at h
          subst h
          constructor
          · simp only []
            rw [hspec.2.1]
            simp only []
            rw [abs_signed_target _ _ h0, hmqmin]
          · simp only []
            rw [min_eq_left hlt2.le]
        · simp at h
      · rename_i hge2
        have heq : |taker.quantity| = |maker.quantity| :=
          le_antisymm (not_lt.mp hge) (not_lt.mp hge2)
        simp only [List.head?_cons, Option.some.injEq] at h
        subst h
        constructor
        · simp only []
          rw [heq, min_self]
        · simp only []
          rw [heq, min_self]

theorem matchOrders_crossing :
    ∀ (queue : List StampedOrder) (taker : StampedOrder) (mm : OrderMatch),
    mm ∈ (MatchingEngine.matchOrders taker queue).1.matchList →
    (0 < taker.quantity → mm.maker.price ≤ mm.taker.price)
    ∧ (taker.quantity < 0 → mm.taker.price ≤ mm.maker.price)
  | [], taker, mm, h => by simp [MatchingEngine.matchOrders] at h
  | maker :: rest, taker, mm, h => by
    rw [MatchingEngine.matchOrders] at h
    split at h
    · simp at h
    · rename_i hmq
      have h0 : (0:ℚ) ≤ MatchingEngine.matchingQuantityFor taker maker :=
        le_of_lt (lt_of_not_le hmq)
      have hcross : (0 < taker.quantity → maker.price ≤ taker.price)
          ∧ (taker.quantity < 0 → taker.price ≤ maker.price) := by
        constructor
        · intro hb
          by_contra hnc
          apply hmq
          rw [MatchingEngine.matchingQuantityFor, if_pos hb,
            MatchingEngine.getMatchingQuantity, if_neg hnc]
        · intro hs
          by_contra hnc
          apply hmq
          rw [MatchingEngine.matchingQuantityFor,
            if_neg (not_lt.mpr hs.le),
            MatchingEngine.getMatchingQuantity, if_neg hnc]
      split at h
      · rename_i hlt
        split at h
        · rename_i target remaining hsplit
          have hspec := splitOrderByQuantity_eq _ _ _ _ hsplit
          simp only [List.mem_cons] at h
          rcases h with h | h
          · subst h
            constructor
            · intro hb
              simp only []
              rw [hspec.2.1]
              exact hcross.1 hb
            · intro hs
              simp only []
              rw [hspec.2.1]
              exact hcross.2 hs
          · have ih := matchOrders_crossing rest remaining mm h
            have hsign := sign_preserved_remaining taker.quantity
              (MatchingEngine.matchingQuantityFor taker maker) h0 hspec.1
            constructor
            · intro hb
              apply ih.1
              have := hsign.1 hb
              rw [hspec.2.2]
              exact this
            · intro hs
              apply ih.2
              have := hsign.2 hs
              rw [hspec.2.2]
              exact this
        · simp at h
      · split at h
        · split at h
          · rename_i target remaining hsplit
            have hspec := splitOrderByQuantity_eq _ _ _ _ hsplit
            simp only [List.mem_cons, List.not_mem_nil, or_false] at h
            subst h
            constructor
            · intro hb
              simp only []
              rw [hspec.2.1]
              exact hcross.1 hb
            · intro hs
              simp only []
              rw [hspec.2.1]
              exact hcross.2 hs
          · simp at h
        · simp only [List.mem_cons, List.not_mem_nil, or_false] at h
          subst h
          exact hcross

/-- Sell order A of scenario S4: price 5, quantity 3, createdAt 100. -/
def sellA : StampedOrder := ⟨"A", "LTC/BTC", 5, -3, 100, none, some "peer1", some ""⟩

/-- Sell order B of scenario S4: price 5, quantity 3, createdAt 101. -/
def sellB : StampedOrder := ⟨"B", "LTC/BTC", 5, -3, 101, none, some "peer1", some ""⟩

/-- The engine of scenario S4, with B inserted before A. -/
def engineS4 : MatchingEngine :=
  MatchingEngine.addPeerOrder
    (MatchingEngine.addPeerOrder ⟨"LTC/BTC", [], []⟩ sellB) sellA

/-- The own buy of quantity 3 at price 5 of scenario S4. -/
def buyS4 : StampedOrder :=
  ⟨"T", "LTC/BTC", 5, 3, 200, some "localT", none, none⟩

/-- Claim C2: a match is emitted only when the buy price is at least the sell
price (`getMatchingQuantity` is 0 for a buy strictly below a sell), the two
sides of the emitted match at the head of the queue carry quantity
`min(|taker|, |maker|)` of the two orders at match time, and at equal prices
the priority-queue comparator prefers the earlier `createdAt`, so the earlier
resting order is matched first (scenario S4). -/
theorem claimC2_matching :
    (∀ buyOrder sellOrder : StampedOrder,
      buyOrder.price < sellOrder.price →
      MatchingEngine.getMatchingQuantity buyOrder sellOrder = 0)
    ∧ (∀ (taker maker : StampedOrder) (rest : List StampedOrder)
        (mm : OrderMatch),
        (MatchingEngine.matchOrders taker (maker :: rest)).1.matchList.head?
          = some mm →
        |mm.maker.quantity| = min |taker.quantity| |maker.quantity|
        ∧ |mm.taker.quantity| = min |taker.quantity| |maker.quantity|)
    ∧ (∀ (queue : List StampedOrder) (taker : StampedOrder) (mm : OrderMatch),
        mm ∈ (MatchingEngine.matchOrders taker queue).1.matchList →
        (0 < taker.quantity → mm.maker.price ≤ mm.taker.price)
        ∧ (taker.quantity < 0 → mm.taker.price ≤ mm.maker.price))
    ∧ (∀ (direction : OrderingDirection) (a b : StampedOrder),
        a.price = b.price →
        (MatchingEngine.getOrdersPriorityQueueComparator direction a b = true
          ↔ a.createdAt < b.createdAt))
    ∧ engineS4.sellOrders = [sellA, sellB]
    ∧ (MatchingEngine.matchOrAddOwnOrder engineS4 buyS4 false).1.matchList.map
        (fun m => m.maker.id) = ["A"]
    ∧ (MatchingEngine.matchOrAddOwnOrder engineS4 buyS4 false).2.sellOrders
        = [sellB] := by
  refine ⟨?_, matchOrders_head_min, matchOrders_crossing, ?_,
    by with_unfolding_all decide, by with_unfolding_all decide,
    by with_unfolding_all decide⟩
  · intro buyOrder sellOrder h
    rw [MatchingEngine.getMatchingQuantity, if_neg (not_le.mpr h)]
  · intro direction a b h
    rw [MatchingEngine.getOrdersPriorityQueueComparator.eq_def, if_pos h]
    exact decide_eq_true_iff

/-- Witness for C2: the quantified parts applied to concrete orders (a buy at
5 against a sell at 11/2 gives quantity 0; the S4 head match carries the
minimum quantity 3; every S4 match crosses; the comparator prefers A over B
at equal price). -/
theorem claimC2_matching_witness :
    MatchingEngine.getMatchingQuantity buyS4 ⟨"S", "LTC/BTC", 11/2, -10, 1, none, some "p", some ""⟩ = 0
    ∧ (|sellA.quantity| = min |buyS4.quantity| |sellA.quantity|
        ∧ |buyS4.quantity| = min |buyS4.quantity| |sellA.quantity|)
    ∧ ((0 < buyS4.quantity → sellA.price ≤ buyS4.price)
        ∧ (buyS4.quantity < 0 → buyS4.price ≤ sellA.price))
    ∧ (MatchingEngine.getOrdersPriorityQueueComparator OrderingDirection.Asc
        sellA sellB = true ↔ sellA.createdAt < sellB.createdAt) :=
  ⟨claimC2_matching.1 buyS4 _ (by with_unfolding_all decide),
   by
    have := claimC2_matching.2.1 buyS4 sellA [sellB]
      ⟨sellA, buyS4⟩ (by with_unfolding_all decide)
    exact this,
   by
    have := claimC2_matching.2.2.1 [sellA, sellB] buyS4
      ⟨sellA, buyS4⟩ (by with_unfolding_all decide)
    exact this,
   claimC2_matching.2.2.2.1 OrderingDirection.Asc sellA sellB rfl⟩

/-- A book with one mapped local id, for exercising the duplicate check. -/
def bookWithLocal1 : OrderBookState :=
  { emptyBook with localIdMap := [("local1", "gidX")] }

/-- Claim C4: placing an own order whose localId is already in the local-id map
fails synchronously with `DUPLICATE_ORDER`, and placing one whose pairId has
no matching engine fails synchronously with `INVALID_PAIR_ID`; in both cases
the error is returned before any state is produced, so no id or createdAt is
stamped and no map, queue or local-id entry changes (the embedding returns
only the error, leaving the caller's state untouched). -/
theorem claimC4_validationErrors (s : OrderBookState) (order : OwnOrder)
    (newId : String) (now : ℕ) (discardRemaining : Bool)
    (hsane : ∀ kv ∈ s.localIdMap, kv.2 ≠ "") :
    ((lookupA s.localIdMap order.localId).isSome →
      OrderBook.addOwnOrder s order newId now discardRemaining
        = Except.error (OrderBookError.duplicateOrder order.localId))
    ∧ (lookupA s.localIdMap order.localId = none →
      lookupA s.matchingEngines order.pairId = none →
      OrderBook.addOwnOrder s order newId now discardRemaining
        = Except.error (OrderBookError.invalidPairId order.pairId)) := by
  constructor
  · intro hdup
    obtain ⟨gid, hgid⟩ := Option.isSome_iff_exists.mp hdup
    have hne := hsane (order.localId, gid) (lookupA_mem _ _ _ hgid)
    have ht : strTruthy (lookupA s.localIdMap order.localId) = true := by
      rw [hgid]
      simp [strTruthy, hne]
    rw [OrderBook.addOwnOrder, if_pos ht]
  · intro hnone heng
    have hf : strTruthy (lookupA s.localIdMap order.localId) = false := by
      rw [hnone]
      rfl
    rw [OrderBook.addOwnOrder, if_neg (by rw [hf]; exact Bool.false_ne_true)]
    rw [heng]

/-- Witness for C4: both failure paths at concrete inputs. -/
theorem claimC4_validationErrors_witness :
    OrderBook.addOwnOrder bookWithLocal1 ⟨"LTC/BTC", 10, 5, "local1"⟩ "g" 3 false
      = Except.error (OrderBookError.duplicateOrder "local1")
    ∧ OrderBook.addOwnOrder emptyBook ⟨"NO/PAIR", 10, 5, "l"⟩ "g" 3 false
      = Except.error (OrderBookError.invalidPairId "NO/PAIR") :=
  ⟨(claimC4_validationErrors bookWithLocal1 ⟨"LTC/BTC", 10, 5, "local1"⟩ "g" 3
      false (by decide)).1 (by decide),
   (claimC4_validationErrors emptyBook ⟨"NO/PAIR", 10, 5, "l"⟩ "g" 3
      false (by decide)).2 (by decide) (by decide)⟩

/-- Claim C10: `removeOwnOrderByLocalId` with a localId absent from the
local-id map returns `{ removed: false, globalId: undefined }`, sends nothing
to the pool, and returns the book state unchanged. -/
theorem claimC10_removeUnknownLocalId (s : OrderBookState)
    (pairId localId : String) (h : lookupA s.localIdMap localId = none) :
    OrderBook.removeOwnOrderByLocalId s pairId localId
      = (⟨false, none⟩, s, []) := by
  rw [OrderBook.removeOwnOrderByLocalId, h]

/-- Witness for C10 at a concrete book. -/
theorem claimC10_removeUnknownLocalId_witness :
    OrderBook.removeOwnOrderByLocalId bookS2 "LTC/BTC" "nosuch"
      = (⟨false, none⟩, bookS2, []) :=
  claimC10_removeUnknownLocalId bookS2 "LTC/BTC" "nosuch"
    (by with_unfolding_all decide)

/-- Claim C6 (code bug): the source's `removePeerOrder` looks the order up with
`ordersMap[orderId]`, reading the order id as a property of the
`{ buyOrders, sellOrders }` record, which always yields `undefined`; so an
order invalidation for a known peer order neither decrements nor removes it —
the call always returns `false` and leaves the book (including the known
order) unchanged, against the claimed decrement/full-removal behaviour. -/
theorem claimC6_removePeerOrderBroken :
    (∀ (s : OrderBookState) (orderId pairId : String) (d : Option ℚ),
      OrderBook.removePeerOrder s orderId pairId d = (false, s, []))
    ∧ (∃ os, lookupA bookS2.peerOrders "LTC/BTC" = some os
        ∧ (lookupA os.sellOrders "pidA").isSome)
    ∧ OrderBook.removePeerOrder bookS2 "pidA" "LTC/BTC" none
        = (false, bookS2, [])
    ∧ OrderBook.removePeerOrder bookS2 "pidA" "LTC/BTC" (some 2)
        = (false, bookS2, []) := by
  refine ⟨?_, ?_, by with_unfolding_all decide, by with_unfolding_all decide⟩
  · intro s orderId pairId d
    cases he : lookupA s.matchingEngines pairId <;>
      cases ho : lookupA s.peerOrders pairId <;>
        simp [OrderBook.removePeerOrder, OrderBook.ordersRecordLookup, he, ho]
  · exact ⟨⟨[], [("pidA", stampPeerOrder peerSell4 1),
      ("pidB", stampPeerOrder peerSell5 2)]⟩,
      by with_unfolding_all decide, by with_unfolding_all decide⟩

/-- Claim C7: for every `SwapAcceptedPacket` whose body passes validation
(non-empty `rHash`, non-zero `quantity` and `makerCltvDelta`, packet id and
request id set and non-empty), deserializing the serialization yields a
packet equal to the original: body fields and both header ids preserved. -/
theorem claimC7_packetRoundTrip (p : SwapAcceptedPacket)
    (body : SwapAcceptedPacketBody) (r : String)
    (hbody : p.body = some body) (hreq : p.header.reqId = some r)
    (hid : p.header.id ≠ "") (hr : r ≠ "") (hrhash : body.rHash ≠ "")
    (hq : body.quantity ≠ 0) (hc : body.makerCltvDelta ≠ 0) :
    ∃ msg, SwapAcceptedPacket.serialize p = some msg
      ∧ SwapAcceptedPacket.deserialize msg = Sum.inl p := by
  obtain ⟨⟨pid, preq⟩, pb⟩ := p
  simp only [] at hbody hreq hid
  subst hbody
  subst hreq
  refine ⟨⟨pid, r, body.rHash, body.quantity, body.makerCltvDelta⟩, rfl, ?_⟩
  rw [SwapAcceptedPacket.deserialize]
  have hv : SwapAcceptedPacket.validate
      ⟨pid, r, body.rHash, body.quantity, body.makerCltvDelta⟩ = true := by
    simp [SwapAcceptedPacket.validate, hid, hr, hrhash, hq, hc]
  rw [if_pos hv]
  rfl

/-- Witness for C7: the round trip at a concrete packet. -/
theorem claimC7_packetRoundTrip_witness :
    ∃ msg, SwapAcceptedPacket.serialize
        ⟨⟨"id1", some "req1"⟩, some ⟨"rhash1", 1, 144⟩⟩ = some msg
      ∧ SwapAcceptedPacket.deserialize msg
        = Sum.inl ⟨⟨"id1", some "req1"⟩, some ⟨"rhash1", 1, 144⟩⟩ :=
  claimC7_packetRoundTrip ⟨⟨"id1", some "req1"⟩, some ⟨"rhash1", 1, 144⟩⟩
    ⟨"rhash1", 1, 144⟩ "req1" rfl rfl (by decide) (by decide) (by decide)
    (by with_unfolding_all decide) (by with_unfolding_all decide)

/-- Claim C8: `addMarketOrder` matches the order with price `Number.MAX_VALUE`
when its quantity is positive (a buy) and price 0 when negative (a sell);
with those prices a market buy crosses any resting sell whose price is a
representable JavaScript number (at most `Number.MAX_VALUE`) and a market
sell crosses any resting buy with non-negative price — the matching quantity
is the full `min` of the two quantities rather than 0. -/
theorem claimC8_marketOrderPrice (s : OrderBookState) (order : OwnMarketOrder)
    (newId : String) (now : ℕ) :
    (0 < order.quantity →
      OrderBook.addMarketOrder s order newId now
        = OrderBook.addOwnOrder s
            ⟨order.pairId, order.quantity, numberMaxValue, order.localId⟩
            newId now true
      ∧ ∀ sellOrder : StampedOrder, sellOrder.price ≤ numberMaxValue →
          MatchingEngine.getMatchingQuantity
            (stampOwnOrder
              ⟨order.pairId, order.quantity, numberMaxValue, order.localId⟩
              newId now)
            sellOrder = min |order.quantity| |sellOrder.quantity|)
    ∧ (order.quantity < 0 →
      OrderBook.addMarketOrder s order newId now
        = OrderBook.addOwnOrder s
            ⟨order.pairId, order.quantity, 0, order.localId⟩ newId now true
      ∧ ∀ buyOrder : StampedOrder, 0 ≤ buyOrder.price →
          MatchingEngine.getMatchingQuantity buyOrder
            (stampOwnOrder ⟨order.pairId, order.quantity, 0, order.localId⟩
              newId now)
            = min |buyOrder.quantity| |order.quantity|) := by
  constructor
  · intro hq
    constructor
    · rw [OrderBook.addMarketOrder, if_pos hq]
    · intro sellOrder hp
      rw [MatchingEngine.getMatchingQuantity]
      dsimp only [stampOwnOrder]
      rw [if_pos hp]
  · intro hq
    constructor
    · rw [OrderBook.addMarketOrder, if_neg (not_lt.mpr hq.le)]
    · intro buyOrder hp
      rw [MatchingEngine.getMatchingQuantity]
      dsimp only [stampOwnOrder]
      rw [if_pos hp]

/-- Witness for C8: a market buy of 10 against a resting sell at 5 and a
market sell of 10 against a resting buy at 5, both crossing in full. -/
theorem claimC8_marketOrderPrice_witness :
    (OrderBook.addMarketOrder emptyBook ⟨"LTC/BTC", 10, "mb"⟩ "g1" 7
        = OrderBook.addOwnOrder emptyBook
            ⟨"LTC/BTC", 10, numberMaxValue, "mb"⟩ "g1" 7 true
      ∧ MatchingEngine.getMatchingQuantity
          (stampOwnOrder ⟨"LTC/BTC", 10, numberMaxValue, "mb"⟩ "g1" 7)
          (stampPeerOrder peerSell5 1) = min |(10:ℚ)| |(-5:ℚ)|)
    ∧ (OrderBook.addMarketOrder emptyBook ⟨"LTC/BTC", -10, "ms"⟩ "g2" 7
        = OrderBook.addOwnOrder emptyBook ⟨"LTC/BTC", -10, 0, "ms"⟩ "g2" 7 true
      ∧ MatchingEngine.getMatchingQuantity
          ⟨"B1", "LTC/BTC", 5, 4, 1, none, some "p1", some ""⟩
          (stampOwnOrder ⟨"LTC/BTC", -10, 0, "ms"⟩ "g2" 7)
          = min |(4:ℚ)| |(-10:ℚ)|) := by
  have h1 := (claimC8_marketOrderPrice emptyBook ⟨"LTC/BTC", 10, "mb"⟩ "g1" 7).1
    (by with_unfolding_all decide)
  have h2 := (claimC8_marketOrderPrice emptyBook ⟨"LTC/BTC", -10, "ms"⟩ "g2" 7).2
    (by with_unfolding_all decide)
  exact ⟨⟨h1.1, h1.2 (stampPeerOrder peerSell5 1)
      (by norm_num [stampPeerOrder, peerSell5, numberMaxValue])⟩,
    ⟨h2.1, h2.2 ⟨"B1", "LTC/BTC", 5, 4, 1, none, some "p1", some ""⟩
      (by norm_num)⟩⟩

theorem addOwnOrderMatchStep_msgs :
    ∀ (ms : List OrderMatch) (st : OrderBookState) (acc : List PoolMessage),
    (ms.foldl OrderBook.addOwnOrderMatchStep (st, acc)).2
      = acc ++ (ms.map OrderBook.handleMatch).flatten
  | [], st, acc => by simp
  | m :: rest, st, acc => by
    rw [List.foldl_cons, OrderBook.addOwnOrderMatchStep]
    rw [addOwnOrderMatchStep_msgs rest _ _]
    simp

theorem matchOrders_remaining_source :
    ∀ (queue : List StampedOrder) (taker r : StampedOrder),
    (MatchingEngine.matchOrders taker queue).1.remainingOrder = some r →
    r.localId = taker.localId ∧ r.peerId = taker.peerId
  | [], taker, r, h => by
    simp only [MatchingEngine.matchOrders, Option.some.injEq] at h
    subst h
    exact ⟨rfl, rfl⟩
  | maker :: rest, taker, r, h => by
    rw [MatchingEngine.matchOrders] at h
    split at h
    · simp only [Option.some.injEq] at h
      subst h
      exact ⟨rfl, rfl⟩
    · split at h
      · split at h
        · rename_i target remaining hsplit
          have hspec := splitOrderByQuantity_eq _ _ _ _ hsplit
          have ih := matchOrders_remaining_source rest remaining r h
          rw [hspec.2.2] at ih
          exact ih
        · simp only [Option.some.injEq] at h
          subst h
          exact ⟨rfl, rfl⟩
      · split at h
        · split at h
          · simp at h
          · simp only [Option.some.injEq] at h
            subst h
            exact ⟨rfl, rfl⟩
        · simp at h

theorem handleMatch_mem (m : OrderMatch) (msg : PoolMessage)
    (h : msg ∈ OrderBook.handleMatch m) :
    isOwnOrder m.maker = true
    ∧ msg = PoolMessage.orderInvalidation m.maker.id m.maker.pairId
        m.maker.quantity := by
  rw [OrderBook.handleMatch] at h
  split at h
  · rename_i hown
    simp only [List.mem_cons, List.not_mem_nil, or_false] at h
    exact ⟨hown, h⟩
  · simp at h

theorem addOwnOrder_msgs (s : OrderBookState) (order : OwnOrder)
    (newId : String) (now : ℕ) (d : Bool)
    (out : OrderBook.AddOwnOrderOutput)
    (h : OrderBook.addOwnOrder s order newId now d = Except.ok out) :
    ∀ msg ∈ out.msgs,
      msg ∈ (out.result.matchList.map OrderBook.handleMatch).flatten
      ∨ ∃ rem, out.result.remainingOrder = some rem ∧ d = false
          ∧ msg = PoolMessage.order rem := by
  simp only [OrderBook.addOwnOrder] at h
  split at h
  · exact absurd h (by simp)
  · split at h
    · exact absurd h (by simp)
    · rename_i engine heng
      split at h
      · rename_i rem hrem
        injection h with h
        subst h
        intro msg hmsg
        simp only [] at hmsg
        rw [addOwnOrderMatchStep_msgs] at hmsg
        rw [List.nil_append] at hmsg
        rcases List.mem_append.mp hmsg with hmem | hmem
        · exact Or.inl hmem
        · simp only [List.mem_cons, List.not_mem_nil, or_false] at hmem
          exact Or.inr ⟨rem, hrem, rfl, hmem⟩
      · injection h with h
        subst h
        intro msg hmsg
        simp only [] at hmsg
        rw [addOwnOrderMatchStep_msgs, List.nil_append] at hmsg
        exact Or.inl hmsg

theorem addOwnOrder_remaining_isOwn (s : OrderBookState) (order : OwnOrder)
    (newId : String) (now : ℕ) (d : Bool)
    (out : OrderBook.AddOwnOrderOutput) (rem : StampedOrder)
    (h : OrderBook.addOwnOrder s order newId now d = Except.ok out)
    (hrem : out.result.remainingOrder = some rem) :
    isOwnOrder rem = true := by
  obtain ⟨engine, _, hres⟩ := addOwnOrder_result s order newId now d out h
  rw [hres, matchOrAddOwnOrder_result] at hrem
  have hsrc : rem.localId = (stampOwnOrder order newId now).localId
      ∧ rem.peerId = (stampOwnOrder order newId now).peerId := by
    split at hrem
    · exact matchOrders_remaining_source _ _ _ hrem
    · exact matchOrders_remaining_source _ _ _ hrem
  rw [isOwnOrder, hsrc.1, hsrc.2]
  rfl

/-- Claim C9: the node never broadcasts peer orders or peer-order
invalidations: every pool message issued by placing an own order is either
the broadcast of the own remaining order (an own order, sent only when a
remainder exists and is not discarded) or an `orderInvalidation` for a match
whose maker is one of the node's own orders; a match with a peer maker
produces no broadcast, and importing a peer order or removing an own order
by local id sends nothing to the pool. -/
theorem claimC9_broadcastDiscipline :
    (∀ (s : OrderBookState) (order : OwnOrder) (newId : String) (now : ℕ)
      (d : Bool) (out : OrderBook.AddOwnOrderOutput),
      OrderBook.addOwnOrder s order newId now d = Except.ok out →
      ∀ msg ∈ out.msgs,
        (∀ o : StampedOrder, msg = PoolMessage.order o →
          isOwnOrder o = true ∧ out.result.remainingOrder = some o
            ∧ d = false)
        ∧ (∀ (oid pid : String) (q : ℚ),
            msg = PoolMessage.orderInvalidation oid pid q →
            ∃ m ∈ out.result.matchList, isOwnOrder m.maker = true
              ∧ oid = m.maker.id ∧ pid = m.maker.pairId
              ∧ q = m.maker.quantity))
    ∧ (∀ m : OrderMatch, isOwnOrder m.maker = false →
        OrderBook.handleMatch m = [])
    ∧ (∀ (s : OrderBookState) (order : PeerOrder) (now : ℕ),
        (OrderBook.addPeerOrder s order now).2.2 = [])
    ∧ (∀ (s : OrderBookState) (pairId localId : String),
        (OrderBook.removeOwnOrderByLocalId s pairId localId).2.2 = []) := by
  refine ⟨?_, ?_, ?_, ?_⟩
  · intro s order newId now d out h msg hmsg
    rcases addOwnOrder_msgs s order newId now d out h msg hmsg with hm | hm
    · obtain ⟨l, hl, hml⟩ := List.mem_flatten.mp hm
      obtain ⟨m, hmem, hlm⟩ := List.mem_map.mp hl
      subst hlm
      have hh := handleMatch_mem m msg hml
      constructor
      · intro o ho
        rw [ho] at hh
        exact absurd hh.2 (by simp)
      · intro oid pid q hq
        rw [hq] at hh
        have := hh.2
        injection this with h1 h2 h3
        exact ⟨m, hmem, hh.1, h1, h2, h3⟩
    · obtain ⟨rem, hrem, hd, hmsg2⟩ := hm
      subst hmsg2
      constructor
      · intro o ho
        injection ho with ho
        subst ho
        exact ⟨addOwnOrder_remaining_isOwn s order newId now d out _ h hrem,
          hrem, hd⟩
      · intro oid pid q hq
        exact absurd hq (by simp)
  · intro m hm
    rw [OrderBook.handleMatch, if_neg (by rw [hm]; exact Bool.false_ne_true)]
  · intro s order now
    rw [OrderBook.addPeerOrder]
    cases lookupA s.matchingEngines order.pairId <;> rfl
  · intro s pairId localId
    rw [OrderBook.removeOwnOrderByLocalId]
    cases lookupA s.localIdMap localId <;> rfl

/-- Witness for C9: the S2 placement's only pool message is the broadcast of
the own remaining order, and a peer-maker match triggers no broadcast. -/
theorem claimC9_broadcastDiscipline_witness :
    (∀ msg ∈ outS2.msgs,
      (∀ o : StampedOrder, msg = PoolMessage.order o →
        isOwnOrder o = true ∧ outS2.result.remainingOrder = some o
          ∧ (false : Bool) = false)
      ∧ (∀ (oid pid : String) (q : ℚ),
          msg = PoolMessage.orderInvalidation oid pid q →
          ∃ m ∈ outS2.result.matchList, isOwnOrder m.maker = true
            ∧ oid = m.maker.id ∧ pid = m.maker.pairId
            ∧ q = m.maker.quantity))
    ∧ OrderBook.handleMatch ⟨stampPeerOrder peerSell4 1, stampOwnOrder ownBuy10 "g" 3⟩ = [] :=
  ⟨claimC9_broadcastDiscipline.1 bookS2 ownBuy10 "gid1" 3 false outS2
      (by with_unfolding_all rfl),
   claimC9_broadcastDiscipline.2.1 _ (by with_unfolding_all decide)⟩

/-- A concrete own sell order resting in the book. -/
def ownSellC5 : StampedOrder := ⟨"g1", "LTC/BTC", 5, -5, 1, some "loc1", none, none⟩

/-- A book holding `ownSellC5` in the engine, the own-order map and the
local-id map. -/
def bookC5 : OrderBookState :=
  ⟨["LTC/BTC"], [("LTC/BTC", ⟨"LTC/BTC", [], [ownSellC5]⟩)],
   [("LTC/BTC", ⟨[], [("g1", ownSellC5)]⟩)], [("LTC/BTC", ⟨[], []⟩)],
   [("loc1", "g1")]⟩

/-- Claim C5 counterexample: removing a mapped own order by local id succeeds
(`removed = true`, the global id is resolved) yet sends no message at all to
the pool — in particular no `orderInvalidation` broadcast, contrary to the
claim. -/
theorem claimC5_noBroadcast_counterexample :
    (OrderBook.removeOwnOrderByLocalId bookC5 "LTC/BTC" "loc1").1
      = ⟨true, some "g1"⟩
    ∧ (OrderBook.removeOwnOrderByLocalId bookC5 "LTC/BTC" "loc1").2.2
      = ([] : List PoolMessage) := by
  with_unfolding_all decide

theorem removeFromQueue_none :
    ∀ (q : List StampedOrder) (orderId : String),
    (MatchingEngine.removeFromQueue orderId q).1 = none →
    (MatchingEngine.removeFromQueue orderId q).2 = q
  | [], _, _ => rfl
  | o :: rest, orderId, h => by
    rw [MatchingEngine.removeFromQueue] at h ⊢
    split at h
    · exact absurd h (by simp)
    · rename_i hne
      rw [if_neg hne]
      simp only [] at h ⊢
      rw [removeFromQueue_none rest orderId h]

theorem removeFromQueue_none_all :
    ∀ (q : List StampedOrder) (orderId : String),
    (MatchingEngine.removeFromQueue orderId q).1 = none →
    ∀ o ∈ q, o.id ≠ orderId
  | [], _, _ => by simp
  | o₁ :: rest, orderId, h => by
    rw [MatchingEngine.removeFromQueue] at h
    split at h
    · exact absurd h (by simp)
    · rename_i hne
      intro o ho
      rcases List.mem_cons.mp ho with ho | ho
      · subst ho
        exact hne
      · exact removeFromQueue_none_all rest orderId h o ho

theorem removeFromQueue_rest_ne :
    ∀ (q : List StampedOrder) (orderId : String),
    (q.map StampedOrder.id).Nodup →
    ∀ o ∈ (MatchingEngine.removeFromQueue orderId q).2, o.id ≠ orderId
  | [], _, _ => by simp [MatchingEngine.removeFromQueue]
  | o₁ :: rest, orderId, hnd => by
    rw [List.map_cons, List.nodup_cons] at hnd
    rw [MatchingEngine.removeFromQueue]
    split
    · rename_i heq
      intro o ho hoid
      exact hnd.1 (heq ▸ hoid ▸ List.mem_map_of_mem StampedOrder.id ho)
    · rename_i hne
      intro o ho
      simp only [] at ho
      rcases List.mem_cons.mp ho with ho | ho
      · subst ho
        exact hne
      · exact removeFromQueue_rest_ne rest orderId hnd.2 o ho

/-- Claim C5 (amended): for every `removeOwnOrderByLocalId` call with a mapped
localId whose order rests on one side of the pair's engine and own-order map,
the order book resolves the local id to its global id, removes the order from
the matching engine and from its internal maps — but it broadcasts nothing to
peers (no `orderInvalidation` message is sent on this path; only matches
trigger invalidation broadcasts). -/
theorem claimC5_removeOwnOrderByLocalId (s : OrderBookState)
    (pairId localId gid : String) (engine : MatchingEngine) (os : Orders)
    (hmap : lookupA s.localIdMap localId = some gid)
    (hmapnd : (s.localIdMap.map Prod.fst).Nodup)
    (heng : lookupA s.matchingEngines pairId = some engine)
    (hbnd : (engine.buyOrders.map StampedOrder.id).Nodup)
    (hos : lookupA s.ownOrders pairId = some os)
    (hbknd : (os.buyOrders.map Prod.fst).Nodup)
    (hsknd : (os.sellOrders.map Prod.fst).Nodup)
    (hq : ((MatchingEngine.removeFromQueue gid engine.buyOrders).1.isSome
        ∧ (MatchingEngine.removeFromQueue gid engine.sellOrders).1 = none)
      ∨ ((MatchingEngine.removeFromQueue gid engine.buyOrders).1 = none
        ∧ (MatchingEngine.removeFromQueue gid engine.sellOrders).1.isSome))
    (hsnd : (engine.sellOrders.map StampedOrder.id).Nodup)
    (hm : ((lookupA os.buyOrders gid).isSome
        ∧ lookupA os.sellOrders gid = none)
      ∨ (lookupA os.buyOrders gid = none
        ∧ (lookupA os.sellOrders gid).isSome)) :
    (OrderBook.removeOwnOrderByLocalId s pairId localId).1
      = ⟨true, some gid⟩
    ∧ (OrderBook.removeOwnOrderByLocalId s pairId localId).2.2 = []
    ∧ lookupA
        (OrderBook.removeOwnOrderByLocalId s pairId localId).2.1.localIdMap
        localId = none
    ∧ (∃ engine2, lookupA
        (OrderBook.removeOwnOrderByLocalId s pairId localId).2.1.matchingEngines
        pairId = some engine2
        ∧ (∀ o ∈ engine2.buyOrders, o.id ≠ gid)
        ∧ (∀ o ∈ engine2.sellOrders, o.id ≠ gid))
    ∧ (∃ os2, lookupA
        (OrderBook.removeOwnOrderByLocalId s pairId localId).2.1.ownOrders
        pairId = some os2
        ∧ lookupA os2.buyOrders gid = none
        ∧ lookupA os2.sellOrders gid = none) := by
  have hengstep : ∃ o engine2,
      MatchingEngine.removeOwnOrder engine gid = (some o, engine2)
      ∧ (∀ o2 ∈ engine2.buyOrders, o2.id ≠ gid)
      ∧ (∀ o2 ∈ engine2.sellOrders, o2.id ≠ gid) := by
    rcases hq with ⟨hb, hs⟩ | ⟨hb, hs⟩
    · obtain ⟨o, ho⟩ := Option.isSome_iff_exists.mp hb
      have hpair : MatchingEngine.removeFromQueue gid engine.buyOrders
          = (some o, (MatchingEngine.removeFromQueue gid engine.buyOrders).2) := by
        rw [← ho]
      refine ⟨o, { engine with
          buyOrders := (MatchingEngine.removeFromQueue gid engine.buyOrders).2 },
        ?_, ?_, ?_⟩
      · rw [MatchingEngine.removeOwnOrder, hpair]
      · intro o2 h2
        exact removeFromQueue_rest_ne _ _ hbnd o2 h2
      · intro o2 h2
        exact removeFromQueue_none_all _ _ hs o2 h2
    · obtain ⟨o, ho⟩ := Option.isSome_iff_exists.mp hs
      have hpairb : MatchingEngine.removeFromQueue gid engine.buyOrders
          = (none, (MatchingEngine.removeFromQueue gid engine.buyOrders).2) := by
        rw [← hb]
      have hpairs : MatchingEngine.removeFromQueue gid engine.sellOrders
          = (some o, (MatchingEngine.removeFromQueue gid engine.sellOrders).2) := by
        rw [← ho]
      refine ⟨o, { engine with
          sellOrders := (MatchingEngine.removeFromQueue gid engine.sellOrders).2 },
        ?_, ?_, ?_⟩
      · rw [MatchingEngine.removeOwnOrder, hpairb, hpairs]
      · intro o2 h2
        exact removeFromQueue_none_all _ _ hb o2 h2
      · intro o2 h2
        exact removeFromQueue_rest_ne _ _ hsnd o2 h2
  obtain ⟨o, engine2, heq2, hbne, hsne⟩ := hengstep
  simp only [OrderBook.removeOwnOrderByLocalId, hmap, OrderBook.removeOwnOrder]
  rw [heng]
  simp only []
  rw [heq2]
  simp only [OrderBook.removeOrder, if_true]
  rw [hos]
  simp only []
  rcases hm with ⟨hmb, hms⟩ | ⟨hmb, hms⟩
  · rw [if_pos hmb]
    simp only [OrderBook.setOrdersAt, if_true]
    refine ⟨trivial, trivial, lookupA_eraseA_self _ _ hmapnd, ?_, ?_⟩
    · exact ⟨engine2, lookupA_insertA_self _ _ _, hbne, hsne⟩
    · exact ⟨_, lookupA_insertA_self _ _ _,
        lookupA_eraseA_self _ _ hbknd, hms⟩
  · rw [if_neg (by rw [hmb]; exact Bool.false_ne_true), if_pos hms]
    simp only [OrderBook.setOrdersAt, if_true]
    refine ⟨trivial, trivial, lookupA_eraseA_self _ _ hmapnd, ?_, ?_⟩
    · exact ⟨engine2, lookupA_insertA_self _ _ _, hbne, hsne⟩
    · exact ⟨_, lookupA_insertA_self _ _ _, hmb,
        lookupA_eraseA_self _ _ hsknd⟩

/-- Witness for the amended C5 at the concrete book `bookC5`. -/
theorem claimC5_removeOwnOrderByLocalId_witness :
    (OrderBook.removeOwnOrderByLocalId bookC5 "LTC/BTC" "loc1").1
      = ⟨true, some "g1"⟩
    ∧ (OrderBook.removeOwnOrderByLocalId bookC5 "LTC/BTC" "loc1").2.2 = []
    ∧ lookupA
        (OrderBook.removeOwnOrderByLocalId bookC5 "LTC/BTC" "loc1").2.1.localIdMap
        "loc1" = none
    ∧ (∃ engine2, lookupA
        (OrderBook.removeOwnOrderByLocalId bookC5 "LTC/BTC" "loc1").2.1.matchingEngines
        "LTC/BTC" = some engine2
        ∧ (∀ o ∈ engine2.buyOrders, o.id ≠ "g1")
        ∧ (∀ o ∈ engine2.sellOrders, o.id ≠ "g1"))
    ∧ (∃ os2, lookupA
        (OrderBook.removeOwnOrderByLocalId bookC5 "LTC/BTC" "loc1").2.1.ownOrders
        "LTC/BTC" = some os2
        ∧ lookupA os2.buyOrders "g1" = none
        ∧ lookupA os2.sellOrders "g1" = none) :=
  claimC5_removeOwnOrderByLocalId bookC5 "LTC/BTC" "loc1" "g1"
    ⟨"LTC/BTC", [], [ownSellC5]⟩ ⟨[], [("g1", ownSellC5)]⟩
    (by decide) (by decide) (by decide) (by decide) (by decide) (by decide)
    (by decide) (Or.inr ⟨by decide, by decide⟩) (by decide)
    (Or.inr ⟨by decide, by decide⟩)

/-! ## Helper lemmas and definitions for peer-disconnect purging -/

theorem lookupA_isSome_iff_mem_keys {α : Type} :
    ∀ (m : List (String × α)) (k : String),
    (lookupA m k).isSome = true ↔ k ∈ m.map Prod.fst
  | [], k => by simp [lookupA]
  | (a, b) :: rest, k => by
    rw [lookupA, List.map_cons]
    by_cases ha : a = k
    · subst ha
      simp
    · rw [if_neg ha, List.mem_cons, lookupA_isSome_iff_mem_keys rest k]
      constructor
      · exact Or.inr
      · intro h
        rcases h with h | h
        · exact absurd h.symm ha
        · exact h

/-- The well-formedness, relative to one peer, of one pair of a book state:
the pair has an engine and a peer-order map; engine orders carry the pair id;
map keys are unique and equal the stored order's id; and every map order
sourced from the peer has a counterpart (same id and source) in an engine
queue. -/
def pairWF (s : OrderBookState) (pid p : String) : Prop :=
  ∃ e os, lookupA s.matchingEngines p = some e
    ∧ lookupA s.peerOrders p = some os
    ∧ (∀ o ∈ e.buyOrders ++ e.sellOrders, o.pairId = p)
    ∧ ((os.buyOrders ++ os.sellOrders).map Prod.fst).Nodup
    ∧ (∀ kv ∈ os.buyOrders ++ os.sellOrders, kv.1 = kv.2.id
        ∧ (kv.2.peerId = some pid → ∃ o ∈ e.buyOrders ++ e.sellOrders,
            o.id = kv.2.id ∧ o.peerId = some pid))

/-- Book-level well-formedness relative to one peer: distinct pairs, each
well-formed. -/
def bookWF (s : OrderBookState) (pid : String) : Prop :=
  s.pairs.Nodup ∧ ∀ p ∈ s.pairs, pairWF s pid p

/-- No order of a pair — in the engine queues or the peer-order maps — is
sourced from the given peer. -/
def cleanPair (s : OrderBookState) (pid p : String) : Prop :=
  (∀ e, lookupA s.matchingEngines p = some e →
    ∀ o ∈ e.buyOrders ++ e.sellOrders, o.peerId ≠ some pid)
  ∧ (∀ os, lookupA s.peerOrders p = some os →
    ∀ kv ∈ os.buyOrders ++ os.sellOrders, kv.2.peerId ≠ some pid)

/-- No order in any pair of the book has the given peer as source. -/
def noPeerSource (s : OrderBookState) (pid : String) : Prop :=
  ∀ p ∈ s.pairs, cleanPair s pid p

/-- The `peerOrder.invalidation` events due for one pair on the disconnect of
peer `pid`: one event per engine order sourced from the peer, carrying the
order's id and pair id. -/
def eventsOfPair (s : OrderBookState) (pid p : String) : List BookEvent :=
  match lookupA s.matchingEngines p with
  | some e =>
    (e.buyOrders.filter (fun o => decide (o.peerId = some pid))
      ++ e.sellOrders.filter (fun o => decide (o.peerId = some pid))).map
      (fun o => BookEvent.peerOrderInvalidation o.id o.pairId none)
  | none => []

/-- All invalidation events due on the disconnect of peer `pid`, in pair
order. -/
def invalidationEventsFor (s : OrderBookState) (pid : String) :
    List BookEvent :=
  (s.pairs.map (eventsOfPair s pid)).flatten

theorem engineRemovePeerOrders_spec (e : MatchingEngine) (pid : String) :
    (MatchingEngine.removePeerOrders e pid).1
      = e.buyOrders.filter (fun o => decide (o.peerId = some pid))
        ++ e.sellOrders.filter (fun o => decide (o.peerId = some pid))
    ∧ (MatchingEngine.removePeerOrders e pid).2
      = { e with
          buyOrders := e.buyOrders.filter (fun o => !decide (o.peerId = some pid)),
          sellOrders := e.sellOrders.filter (fun o => !decide (o.peerId = some pid)) } := by
  rw [MatchingEngine.removePeerOrders]
  rw [List.partition_eq_filter_filter, List.partition_eq_filter_filter]
  exact ⟨rfl, rfl⟩

theorem removeOrder_peer_step (st : OrderBookState) (orderId p : String)
    (os : Orders) (hos : lookupA st.peerOrders p = some os)
    (hnd : ((os.buyOrders ++ os.sellOrders).map Prod.fst).Nodup) :
    ∃ os1,
      (OrderBook.removeOrder st false orderId p).2.pairs = st.pairs
      ∧ (OrderBook.removeOrder st false orderId p).2.matchingEngines
          = st.matchingEngines
      ∧ (OrderBook.removeOrder st false orderId p).2.ownOrders = st.ownOrders
      ∧ (OrderBook.removeOrder st false orderId p).2.localIdMap = st.localIdMap
      ∧ (∀ q, q ≠ p →
          lookupA (OrderBook.removeOrder st false orderId p).2.peerOrders q
            = lookupA st.peerOrders q)
      ∧ lookupA (OrderBook.removeOrder st false orderId p).2.peerOrders p
          = some os1
      ∧ (∀ kv ∈ os1.buyOrders, kv ∈ os.buyOrders)
      ∧ (∀ kv ∈ os1.sellOrders, kv ∈ os.sellOrders)
      ∧ ((os1.buyOrders ++ os1.sellOrders).map Prod.fst).Nodup
      ∧ lookupA os1.buyOrders orderId = none
      ∧ lookupA os1.sellOrders orderId = none := by
  rw [List.map_append] at hnd
  have hbnd := hnd.of_append_left
  have hsnd := hnd.of_append_right
  have hdisj := List.disjoint_of_nodup_append hnd
  simp only [OrderBook.removeOrder, OrderBook.setOrdersAt,
    Bool.false_eq_true, if_false]
  rw [hos]
  simp only []
  by_cases hb : (lookupA os.buyOrders orderId).isSome = true
  · rw [if_pos hb]
    refine ⟨{ os with buyOrders := eraseA os.buyOrders orderId }, rfl, rfl,
      rfl, rfl, ?_, ?_, ?_, ?_, ?_, ?_, ?_⟩
    · intro q hq
      exact lookupA_insertA_ne _ _ _ _ hq
    · exact lookupA_insertA_self _ _ _
    · intro kv hkv
      exact mem_of_mem_eraseA hkv
    · intro kv hkv
      exact hkv
    · rw [List.map_append]
      exact List.Nodup.append (keys_eraseA_nodup _ _ hbnd) hsnd
        (fun a ha hb2 => hdisj (((eraseA_sublist _ _).map Prod.fst).mem ha) hb2)
    · exact lookupA_eraseA_self _ _ hbnd
    · refine lookupA_of_not_mem_keys _ _ (fun hmem => ?_)
      exact hdisj ((lookupA_isSome_iff_mem_keys _ _).mp hb) hmem
  · rw [if_neg hb]
    by_cases hs : (lookupA os.sellOrders orderId).isSome = true
    · rw [if_pos hs]
      refine ⟨{ os with sellOrders := eraseA os.sellOrders orderId }, rfl, rfl,
        rfl, rfl, ?_, ?_, ?_, ?_, ?_, ?_, ?_⟩
      · intro q hq
        exact lookupA_insertA_ne _ _ _ _ hq
      · exact lookupA_insertA_self _ _ _
      · intro kv hkv
        exact hkv
      · intro kv hkv
        exact mem_of_mem_eraseA hkv
      · rw [List.map_append]
        exact List.Nodup.append hbnd (keys_eraseA_nodup _ _ hsnd)
          (fun a ha hb2 => hdisj ha (((eraseA_sublist _ _).map Prod.fst).mem hb2))
      · exact Option.not_isSome_iff_eq_none.mp hb
      · exact lookupA_eraseA_self _ _ hsnd
    · rw [if_neg hs]
      exact ⟨os, rfl, rfl, rfl, rfl, fun q _ => rfl, hos, fun kv h => h,
        fun kv h => h, by rw [List.map_append]; exact hnd,
        Option.not_isSome_iff_eq_none.mp hb,
        Option.not_isSome_iff_eq_none.mp hs⟩

theorem orderFold_effect :
    ∀ (L : List StampedOrder) (st : OrderBookState) (ev : List BookEvent)
      (p : String) (os : Orders),
    (∀ o ∈ L, o.pairId = p) →
    lookupA st.peerOrders p = some os →
    ((os.buyOrders ++ os.sellOrders).map Prod.fst).Nodup →
    ∃ os2,
      (L.foldl OrderBook.removePeerOrdersOrderStep (st, ev)).1.pairs = st.pairs
      ∧ (L.foldl OrderBook.removePeerOrdersOrderStep (st, ev)).1.matchingEngines
          = st.matchingEngines
      ∧ (L.foldl OrderBook.removePeerOrdersOrderStep (st, ev)).1.ownOrders
          = st.ownOrders
      ∧ (L.foldl OrderBook.removePeerOrdersOrderStep (st, ev)).1.localIdMap
          = st.localIdMap
      ∧ (L.foldl OrderBook.removePeerOrdersOrderStep (st, ev)).2
          = ev ++ L.map (fun o => BookEvent.peerOrderInvalidation o.id o.pairId none)
      ∧ (∀ q, q ≠ p →
          lookupA (L.foldl OrderBook.removePeerOrdersOrderStep (st, ev)).1.peerOrders q
            = lookupA st.peerOrders q)
      ∧ lookupA (L.foldl OrderBook.removePeerOrdersOrderStep (st, ev)).1.peerOrders p
          = some os2
      ∧ (∀ kv ∈ os2.buyOrders, kv ∈ os.buyOrders)
      ∧ (∀ kv ∈ os2.sellOrders, kv ∈ os.sellOrders)
      ∧ ((os2.buyOrders ++ os2.sellOrders).map Prod.fst).Nodup
      ∧ (∀ o ∈ L, lookupA os2.buyOrders o.id = none
          ∧ lookupA os2.sellOrders o.id = none)
  | [], st, ev, p, os, _, hos, hnd => by
    refine ⟨os, rfl, rfl, rfl, rfl, by simp, fun q _ => rfl, hos,
      fun kv h => h, fun kv h => h, hnd, by simp⟩
  | o₁ :: rest, st, ev, p, os, hL, hos, hnd => by
    have hp1 : o₁.pairId = p := hL o₁ (List.mem_cons_self _ _)
    obtain ⟨os1, h1pairs, h1eng, h1own, h1lid, h1other, h1lookup, h1bsub,
      h1ssub, h1nd, h1bnone, h1snone⟩ :=
      removeOrder_peer_step st o₁.id p os hos hnd
    rw [List.foldl_cons]
    have hstep : OrderBook.removePeerOrdersOrderStep (st, ev) o₁
        = ((OrderBook.removeOrder st false o₁.id p).2,
           ev ++ [BookEvent.peerOrderInvalidation o₁.id o₁.pairId none]) := by
      rw [OrderBook.removePeerOrdersOrderStep, hp1]
    rw [hstep]
    obtain ⟨os2, h2pairs, h2eng, h2own, h2lid, h2ev, h2other, h2lookup,
      h2bsub, h2ssub, h2nd, h2none⟩ :=
      orderFold_effect rest (OrderBook.removeOrder st false o₁.id p).2
        (ev ++ [BookEvent.peerOrderInvalidation o₁.id o₁.pairId none]) p os1
        (fun o ho => hL o (List.mem_cons_of_mem _ ho)) h1lookup h1nd
    refine ⟨os2, ?_, ?_, ?_, ?_, ?_, ?_, h2lookup, ?_, ?_, h2nd, ?_⟩
    · rw [h2pairs, h1pairs]
    · rw [h2eng, h1eng]
    · rw [h2own, h1own]
    · rw [h2lid, h1lid]
    · rw [h2ev]
      simp
    · intro q hq
      rw [h2other q hq, h1other q hq]
    · intro kv hkv
      exact h1bsub kv (h2bsub kv hkv)
    · intro kv hkv
      exact h1ssub kv (h2ssub kv hkv)
    · intro o ho
      rcases List.mem_cons.mp ho with ho | ho
      · subst ho
        constructor
        · refine lookupA_of_not_mem_keys _ _ (fun hmem => ?_)
          obtain ⟨kv, hkv, hkveq⟩ := List.mem_map.mp hmem
          have : o.id ∈ os1.buyOrders.map Prod.fst :=
            hkveq ▸ List.mem_map_of_mem Prod.fst (h2bsub kv hkv)
          rw [← lookupA_isSome_iff_mem_keys] at this
          rw [h1bnone] at this
          exact absurd this (by simp)
        · refine lookupA_of_not_mem_keys _ _ (fun hmem => ?_)
          obtain ⟨kv, hkv, hkveq⟩ := List.mem_map.mp hmem
          have : o.id ∈ os1.sellOrders.map Prod.fst :=
            hkveq ▸ List.mem_map_of_mem Prod.fst (h2ssub kv hkv)
          rw [← lookupA_isSome_iff_mem_keys] at this
          rw [h1snone] at this
          exact absurd this (by simp)
      · exact h2none o ho

theorem pairStep_effect (pid : String) (st : OrderBookState)
    (ev : List BookEvent) (p : String) (hwf : pairWF st pid p) :
    (OrderBook.removePeerOrdersPairStep pid (st, ev) p).1.pairs = st.pairs
    ∧ (OrderBook.removePeerOrdersPairStep pid (st, ev) p).1.ownOrders
        = st.ownOrders
    ∧ (OrderBook.removePeerOrdersPairStep pid (st, ev) p).1.localIdMap
        = st.localIdMap
    ∧ (∀ q, q ≠ p →
        lookupA (OrderBook.removePeerOrdersPairStep pid (st, ev) p).1.matchingEngines q
          = lookupA st.matchingEngines q)
    ∧ (∀ q, q ≠ p →
        lookupA (OrderBook.removePeerOrdersPairStep pid (st, ev) p).1.peerOrders q
          = lookupA st.peerOrders q)
    ∧ cleanPair (OrderBook.removePeerOrdersPairStep pid (st, ev) p).1 pid p
    ∧ (OrderBook.removePeerOrdersPairStep pid (st, ev) p).2
        = ev ++ eventsOfPair st pid p := by
  obtain ⟨e, os, heng, hos, hpair, hnd, hlink⟩ := hwf
  have hespec := engineRemovePeerOrders_spec e pid
  have hLpair : ∀ o ∈ (MatchingEngine.removePeerOrders e pid).1, o.pairId = p := by
    intro o ho
    rw [hespec.1] at ho
    rcases List.mem_append.mp ho with ho | ho
    · exact hpair o (List.mem_append_left _ (List.mem_filter.mp ho).1)
    · exact hpair o (List.mem_append_right _ (List.mem_filter.mp ho).1)
  rw [OrderBook.removePeerOrdersPairStep]
  simp only []
  rw [heng]
  simp only []
  obtain ⟨os2, h2pairs, h2eng, h2own, h2lid, h2ev, h2other, h2lookup, h2bsub,
    h2ssub, h2nd, h2none⟩ :=
    orderFold_effect (MatchingEngine.removePeerOrders e pid).1
      { st with matchingEngines :=
          insertA st.matchingEngines p (MatchingEngine.removePeerOrders e pid).2 }
      ev p os hLpair hos hnd
  refine ⟨h2pairs, h2own, h2lid, ?_, h2other, ⟨?_, ?_⟩, ?_⟩
  · intro q hq
    rw [h2eng]
    exact lookupA_insertA_ne _ _ _ _ hq
  · intro e2 he2 o ho
    rw [h2eng] at he2
    rw [lookupA_insertA_self] at he2
    injection he2 with he2
    subst he2
    rw [hespec.2] at ho
    simp only [] at ho
    rcases List.mem_append.mp ho with ho | ho
    · have := (List.mem_filter.mp ho).2
      simp at this
      exact this
    · have := (List.mem_filter.mp ho).2
      simp at this
      exact this
  · intro os' hos' kv hkv hpid
    rw [h2lookup] at hos'
    injection hos' with hos'
    subst hos'
    have hkvos : kv ∈ os.buyOrders ++ os.sellOrders := by
      rcases List.mem_append.mp hkv with h | h
      · exact List.mem_append_left _ (h2bsub kv h)
      · exact List.mem_append_right _ (h2ssub kv h)
    obtain ⟨hkeq, hex⟩ := hlink kv hkvos
    obtain ⟨o, hoe, hoid, hopid⟩ := hex hpid
    have hoL : o ∈ (MatchingEngine.removePeerOrders e pid).1 := by
      rw [hespec.1]
      rcases List.mem_append.mp hoe with ho | ho
      · exact List.mem_append_left _
          (List.mem_filter.mpr ⟨ho, by simp [hopid]⟩)
      · exact List.mem_append_right _
          (List.mem_filter.mpr ⟨ho, by simp [hopid]⟩)
    have hnone := h2none o hoL
    have hkid : kv.1 = o.id := by rw [hkeq, hoid]
    rcases List.mem_append.mp hkv with h | h
    · have hmem : o.id ∈ os2.buyOrders.map Prod.fst :=
        hkid ▸ List.mem_map_of_mem Prod.fst h
      rw [← lookupA_isSome_iff_mem_keys, hnone.1] at hmem
      exact absurd hmem (by simp)
    · have hmem : o.id ∈ os2.sellOrders.map Prod.fst :=
        hkid ▸ List.mem_map_of_mem Prod.fst h
      rw [← lookupA_isSome_iff_mem_keys, hnone.2] at hmem
      exact absurd hmem (by simp)
  · rw [h2ev, eventsOfPair, heng]
    simp only []
    rw [hespec.1]

theorem pairsFold_effect (pid : String) :
    ∀ (ps : List String) (st : OrderBookState) (ev : List BookEvent),
    ps.Nodup →
    (∀ p ∈ ps, pairWF st pid p) →
    (ps.foldl (OrderBook.removePeerOrdersPairStep pid) (st, ev)).1.pairs
        = st.pairs
    ∧ (∀ q, q ∉ ps →
        lookupA (ps.foldl (OrderBook.removePeerOrdersPairStep pid) (st, ev)).1.matchingEngines q
          = lookupA st.matchingEngines q
        ∧ lookupA (ps.foldl (OrderBook.removePeerOrdersPairStep pid) (st, ev)).1.peerOrders q
          = lookupA st.peerOrders q)
    ∧ (∀ p ∈ ps,
        cleanPair (ps.foldl (OrderBook.removePeerOrdersPairStep pid) (st, ev)).1 pid p)
    ∧ (ps.foldl (OrderBook.removePeerOrdersPairStep pid) (st, ev)).2
        = ev ++ (ps.map (eventsOfPair st pid)).flatten
  | [], st, ev, _, _ => ⟨rfl, fun _ _ => ⟨rfl, rfl⟩, by simp, by simp⟩
  | p₁ :: rest, st, ev, hnd, hwf => by
    rw [List.nodup_cons] at hnd
    obtain ⟨hpairs1, hown1, hlid1, heng1, hpeer1, hclean1, hev1⟩ :=
      pairStep_effect pid st ev p₁ (hwf p₁ (List.mem_cons_self _ _))
    have hwfrest : ∀ p ∈ rest,
        pairWF (OrderBook.removePeerOrdersPairStep pid (st, ev) p₁).1 pid p := by
      intro p hp
      have hne : p ≠ p₁ := fun he => hnd.1 (he ▸ hp)
      obtain ⟨e, os, he, ho, h3, h4, h5⟩ := hwf p (List.mem_cons_of_mem _ hp)
      exact ⟨e, os, by rw [heng1 p hne]; exact he,
        by rw [hpeer1 p hne]; exact ho, h3, h4, h5⟩
    obtain ⟨ihpairs, ihuntouched, ihclean, ihev⟩ :=
      pairsFold_effect pid rest
        (OrderBook.removePeerOrdersPairStep pid (st, ev) p₁).1
        (OrderBook.removePeerOrdersPairStep pid (st, ev) p₁).2
        hnd.2 hwfrest
    rw [List.foldl_cons]
    refine ⟨?_, ?_, ?_, ?_⟩
    · rw [ihpairs, hpairs1]
    · intro q hq
      have hq1 : q ≠ p₁ := fun he => hq (he ▸ List.mem_cons_self _ _)
      have hq2 : q ∉ rest := fun he => hq (List.mem_cons_of_mem _ he)
      obtain ⟨hu1, hu2⟩ := ihuntouched q hq2
      exact ⟨by rw [hu1, heng1 q hq1], by rw [hu2, hpeer1 q hq1]⟩
    · intro p hp
      rcases List.mem_cons.mp hp with hp | hp
      · subst hp
        obtain ⟨hu1, hu2⟩ := ihuntouched p hnd.1
        constructor
        · intro e he
          rw [hu1] at he
          exact hclean1.1 e he
        · intro os hos
          rw [hu2] at hos
          exact hclean1.2 os hos
      · exact ihclean p hp
    · rw [ihev, hev1]
      have hmapeq : rest.map
          (eventsOfPair (OrderBook.removePeerOrdersPairStep pid (st, ev) p₁).1 pid)
          = rest.map (eventsOfPair st pid) := by
        refine List.map_congr_left (fun q hq => ?_)
        have hne : q ≠ p₁ := fun he => hnd.1 (he ▸ hq)
        simp only [eventsOfPair]
        rw [heng1 q hne]
      rw [hmapeq]
      simp

/-- Claim C3: on a peer disconnect (`peer.close`), for every well-formed book
the order book removes every order sourced from that peer across all trading
pairs — afterwards no order in any pair, in the engine queues or the
peer-order maps, has that peer as source — and it emits exactly one
`peerOrder.invalidation` event per removed order, carrying the order id and
pair id. -/
theorem claimC3_peerDisconnectPurge (s : OrderBookState) (pid : String)
    (hwf : bookWF s pid) :
    noPeerSource (OrderBook.removePeerOrders s pid).1 pid
    ∧ (OrderBook.removePeerOrders s pid).2 = invalidationEventsFor s pid := by
  obtain ⟨hnd, hpwf⟩ := hwf
  obtain ⟨hpairs, _, hclean, hev⟩ := pairsFold_effect pid s.pairs s [] hnd hpwf
  constructor
  · intro p hp
    rw [OrderBook.removePeerOrders]
    rw [OrderBook.removePeerOrders, hpairs] at hp
    exact hclean p hp
  · rw [OrderBook.removePeerOrders, hev, invalidationEventsFor]
    simp

/-- Witness for C3: purging peer `peer1` from the concrete book `bookS2`. -/
theorem claimC3_peerDisconnectPurge_witness :
    noPeerSource (OrderBook.removePeerOrders bookS2 "peer1").1 "peer1"
    ∧ (OrderBook.removePeerOrders bookS2 "peer1").2
      = invalidationEventsFor bookS2 "peer1" :=
  claimC3_peerDisconnectPurge bookS2 "peer1"
    ⟨by with_unfolding_all decide, by
      intro p hp
      have hpairs : bookS2.pairs = ["LTC/BTC"] := by with_unfolding_all rfl
      rw [hpairs, List.mem_singleton] at hp
      subst hp
      refine ⟨⟨"LTC/BTC", [],
          [stampPeerOrder peerSell4 1, stampPeerOrder peerSell5 2]⟩,
        ⟨[], [("pidA", stampPeerOrder peerSell4 1),
          ("pidB", stampPeerOrder peerSell5 2)]⟩,
        by with_unfolding_all rfl, by with_unfolding_all rfl,
        by with_unfolding_all decide, by with_unfolding_all decide,
        by with_unfolding_all decide⟩⟩
